import Mathlib

/-!
# ext2reader: block address resolution and file reconstruction

A shallow embedding of `src/ext2reader.c`.

* 32-bit and 64-bit unsigned arithmetic is arithmetic on `Nat` with an explicit
  reduction modulo `2^32` or `2^64` wherever the C expression has that type.
* The image file is a size together with a byte at every offset, so that images
  larger than 4 GiB can be written down and evaluated.
* Everything the program does to its environment is recorded in a `World`: the
  offsets of the reads it makes on the image, the bytes it has written to
  the standard output, the outcomes of the allocations still to come, and the
  room left in the output sink.
* An access outside an allocated buffer, a division by zero, a shift of an `int`
  that is out of range, or a second `free` of the same buffer has no defined result in
  C; the embedding makes this explicit (`Res.undefined`, `Step.undefined`, `none`).
* The structures of `ext2fs/ext2_fs.h` are not part of the repository: `main` works on
  an `Image`, which carries the decoded superblock, group descriptors and inodes next
  to the raw bytes.

The file has the definitions first (`rd_indir`, `get_blk`, the reconstruction loop
`main_body`, `main_loop`, `main_extract`, and `main`), then lemmas about them, then one
theorem for each claim about the program.
-/

namespace Ext2Reader

/-! ## Data model -/

/-- Status codes of the program (`enum RetCode`, lines 14 to 20), in declaration order. -/
inductive RetCode where
  | RET_OK
  | RET_IO_ERROR
  | RET_INVALID_FS
  | RET_MEM_ERROR
  | RET_INVALID_INODE
  deriving DecidableEq, Repr

/-- One byte of the image or of the output. -/
abbrev Byte := Fin 256

/-- The image file, opened read-only: its size in bytes and the byte stored at every
offset below the size. -/
structure FILE where
  size : Nat
  byte : Nat → Byte

/-- The environment of a run.
* `reads`: offsets of the block reads attempted on the image so far, oldest first;
* `out`: bytes written to the standard output so far;
* `mallocs`: outcomes of the calls of `malloc` still to come (`true` is success); when the
  list is used up every further call succeeds;
* `room`: how many more bytes the output sink accepts (`none` is no limit). -/
structure World where
  reads : List Nat
  out : List Byte
  mallocs : List Bool
  room : Option Nat
  deriving DecidableEq, Repr

/-- The fields of `struct ext2_inode` that the program uses, each holding the value of the
on-disk little-endian field. `i_block` has `EXT2_N_BLOCKS = 15` slots. -/
structure ext2_inode where
  i_size : Nat
  i_size_high : Nat
  i_block : Fin 15 → Nat

/-- Number of direct block pointers (`EXT2_NDIR_BLOCKS` of `ext2fs/ext2_fs.h`). -/
def EXT2_NDIR_BLOCKS : Nat := 12

/-- Slot of the single-indirect pointer (`EXT2_IND_BLOCK`). -/
def EXT2_IND_BLOCK : Fin 15 := 12

/-- Slot of the double-indirect pointer (`EXT2_DIND_BLOCK`). -/
def EXT2_DIND_BLOCK : Fin 15 := 13

/-- Slot of the triple-indirect pointer (`EXT2_TIND_BLOCK`). -/
def EXT2_TIND_BLOCK : Fin 15 := 14

/-! ## Machine arithmetic -/

/-- Addition of two `uint32_t` values. -/
def add32 (a b : Nat) : Nat := (a + b) % 4294967296

/-- Subtraction of two `uint32_t` values. -/
def sub32 (a b : Nat) : Nat := (a % 4294967296 + 4294967296 - b % 4294967296) % 4294967296

/-- Multiplication of two `uint32_t` values. -/
def mul32 (a b : Nat) : Nat := (a * b) % 4294967296

/-- Addition of two `uint64_t` values. -/
def add64 (a b : Nat) : Nat := (a + b) % 18446744073709551616

/-- Subtraction of two `uint64_t` values. -/
def sub64 (a b : Nat) : Nat :=
  (a % 18446744073709551616 + 18446744073709551616 - b % 18446744073709551616)
    % 18446744073709551616

/-- The value of a 32-bit little-endian field (`le32`, line 12). -/
def le32 (v : Nat) : Nat := v % 4294967296

/-! ## Library calls -/

/-- A call of `malloc`: takes the next outcome from the world. -/
def malloc (w : World) : Bool × World :=
  match w.mallocs with
  | [] => (true, w)
  | b :: rest => (b, { w with mallocs := rest })

/-- The pair `fseek(f, off, SEEK_SET)`, `fread(buf, n, 1, f)`: the read is recorded, and it
returns 1 exactly when `n` is not 0 and the image holds `n` bytes from offset `off` on (a
read of an element of size 0 returns 0). Seeking to a non-negative offset of a regular
file does not fail. -/
def fseek_fread (f : FILE) (off n : Nat) (w : World) : Option (List Byte) × World :=
  let w1 := { w with reads := w.reads ++ [off] }
  if 0 < n ∧ off + n ≤ f.size then
    (some ((List.range n).map fun k => f.byte (off + k)), w1)
  else
    (none, w1)

/-- The call `fwrite(dat, 1, len, stdout)`: appends as many of the first `len` bytes of `dat`
as the sink has room for and returns how many were written. -/
def fwrite (dat : List Byte) (len : Nat) (w : World) : Nat × World :=
  let src := dat.take len
  match w.room with
  | none => (src.length, { w with out := w.out ++ src })
  | some r =>
    ((src.take r).length,
      { w with out := w.out ++ src.take r, room := some (r - (src.take r).length) })

/-- The expression `le32(buf[idx])` on a buffer of bytes seen as an array of `uint32_t`:
the little-endian value of bytes `4*idx` to `4*idx+3`, undefined outside the buffer. -/
def buf_le32 (buf : List Byte) (idx : Nat) : Option Nat :=
  match buf[4 * idx]?, buf[4 * idx + 1]?, buf[4 * idx + 2]?, buf[4 * idx + 3]? with
  | some b0, some b1, some b2, some b3 =>
    some (b0.val + 256 * b1.val + 65536 * b2.val + 16777216 * b3.val)
  | _, _, _, _ => none

/-! ## Block address resolver -/

/-- Result of a function that returns a `RetCode` and stores a value through a pointer:
`ok v w` is `RET_OK` with `v` stored, `fail rc w` is the return of the error code `rc`
with nothing stored, `undefined` is undefined behaviour. -/
inductive Res where
  | ok (v : Nat) (w : World)
  | fail (rc : RetCode) (w : World)
  | undefined
  deriving DecidableEq, Repr

/-- The function `rd_indir` (lines 22 to 49). The product `indir * bsz` passed to `fseek` has
type `uint32_t`; `buf[idx]` outside the `bsz` bytes of the buffer is undefined. -/
def rd_indir (f : FILE) (indir idx bsz : Nat) (w : World) : Res :=
  -- lines 23 to 26
  if indir = 0 then .ok 0 w
  else
    -- lines 28 to 32
    match malloc w with
    | (false, w1) => .fail .RET_MEM_ERROR w1
    | (true, w1) =>
      -- lines 34 to 44
      match fseek_fread f (mul32 indir bsz) bsz w1 with
      | (none, w2) => .fail .RET_IO_ERROR w2
      | (some buf, w2) =>
        -- lines 46 to 48
        match buf_le32 buf idx with
        | none => .undefined
        | some v => .ok v w2

/-- The idiom `if ((rc = e) != RET_OK) return rc;`: what follows runs, with the value stored
by `e`, only when `e` returned `RET_OK`; otherwise the code of `e` is returned. -/
def Res.andThen (r : Res) (k : Nat → World → Res) : Res :=
  match r with
  | .ok v w => k v w
  | .fail rc w => .fail rc w
  | .undefined => .undefined

/-- The function `get_blk` (lines 51 to 94). All arithmetic is that of `uint32_t`. The two
tests for a zero divisor stand for the divisions of lines 72, 73 and 84 to 86, which are
undefined for a zero divisor; there is no test of `log_blk` against the end of the
triple-indirect range. -/
def get_blk (f : FILE) (log_blk : Nat) (ino : ext2_inode) (bsz : Nat) (w : World) : Res :=
  let ents := bsz / 4
  -- lines 56 to 59
  if h : log_blk < EXT2_NDIR_BLOCKS then
    .ok (le32 (ino.i_block ⟨log_blk, Nat.lt_trans h (by decide)⟩)) w
  -- lines 61 to 67
  else if log_blk < add32 EXT2_NDIR_BLOCKS ents then
    let sgl := le32 (ino.i_block EXT2_IND_BLOCK)
    (rd_indir f sgl (sub32 log_blk EXT2_NDIR_BLOCKS) bsz w).andThen fun tmp w1 =>
    .ok tmp w1
  -- lines 69 to 80
  else if log_blk < add32 (add32 EXT2_NDIR_BLOCKS ents) (mul32 ents ents) then
    let block := sub32 log_blk (add32 EXT2_NDIR_BLOCKS ents)
    let dbl := le32 (ino.i_block EXT2_DIND_BLOCK)
    if ents = 0 then .undefined
    else
      let idx1 := block / ents
      let idx2 := block % ents
      (rd_indir f dbl idx1 bsz w).andThen fun tmp w1 =>
      (rd_indir f tmp idx2 bsz w1).andThen fun tmp2 w2 =>
      .ok tmp2 w2
  -- lines 82 to 93
  else
    let block := sub32 log_blk (add32 (add32 EXT2_NDIR_BLOCKS ents) (mul32 ents ents))
    let tri := le32 (ino.i_block EXT2_TIND_BLOCK)
    if mul32 ents ents = 0 ∨ ents = 0 then .undefined
    else
      let idx1 := block / mul32 ents ents
      let idx2 := (block / ents) % ents
      let idx3 := block % ents
      (rd_indir f tri idx1 bsz w).andThen fun tmp w1 =>
      (rd_indir f tmp idx2 bsz w1).andThen fun tmp2 w2 =>
      (rd_indir f tmp2 idx3 bsz w2).andThen fun tmp3 w3 =>
      .ok tmp3 w3

/-! ## File reconstructor -/

/-- The inner loop of lines 189 to 195: `len` single zero bytes written one by one; `false`
when a write fails. -/
def write_zeros : Nat → World → Bool × World
  | 0, w => (true, w)
  | n + 1, w =>
    match fwrite [0] 1 w with
    | (1, w1) => write_zeros n w1
    | (_, w1) => (false, w1)

/-- The length of lines 179 and 180: `f_sz % bsz` for the last block, `bsz` for the others,
and `bsz` again when that gave 0. -/
def blk_len (bsz f_sz max_blk b : Nat) : Nat :=
  let len := if b = sub64 max_blk 1 then f_sz % bsz else bsz
  if len = 0 then bsz else len

/-- Outcome of one iteration of the reconstruction loop: `next w` goes on to the following
block, `stop ret w` is a jump to `cleanup` with the value `ret` holds at that moment,
`undefined` is undefined behaviour. -/
inductive Step where
  | next (w : World)
  | stop (ret : RetCode) (w : World)
  | undefined
  deriving DecidableEq, Repr

/-- The body of the reconstruction loop of `main` (lines 178 to 216) for block `b`. The
64-bit `b` is converted to the 32-bit parameter of `get_blk`. When the allocation of the
data buffer fails, `CHECK_NULL` jumps to `cleanup` without assigning `ret`, which still
holds the `RET_OK` of `get_blk`. When the read of the data block fails (lines 202 to 205)
or the write of it comes short (lines 209 to 212), `dat` is freed and keeps its value, and
`cleanup` frees it a second time (line 220): the behaviour is undefined. -/
def main_body (f : FILE) (ino : ext2_inode) (bsz f_sz max_blk b : Nat) (w : World) : Step :=
  -- lines 179 and 180
  let len := blk_len bsz f_sz max_blk b
  -- lines 182 to 185
  match get_blk f (b % 4294967296) ino bsz w with
  | .undefined => .undefined
  | .fail rc w1 => .stop rc w1
  | .ok pb w1 =>
    -- lines 187 to 195
    if pb = 0 then
      match write_zeros len w1 with
      | (false, w2) => .stop .RET_IO_ERROR w2
      | (true, w2) => .next w2
    else
      -- lines 197 and 198
      match malloc w1 with
      | (false, w2) => .stop .RET_OK w2
      | (true, w2) =>
        -- lines 200 to 206; the product `pb * bsz` has type `uint32_t`
        match fseek_fread f (mul32 pb bsz) bsz w2 with
        | (none, _) => .undefined
        | (some dat, w3) =>
          -- lines 208 to 215
          match fwrite dat len w3 with
          | (n, w4) => if n ≠ len then .undefined else .next w4

/-- The reconstruction loop of `main` (lines 177 to 217), started at block `b` with `left`
iterations to go (`left = max_blk - b`). The result is the value of `ret` at `cleanup`
together with the world reached, or `none` for undefined behaviour. -/
def main_loop (f : FILE) (ino : ext2_inode) (bsz f_sz max_blk : Nat) :
    Nat → Nat → World → Option (RetCode × World)
  | 0, _, w => some (.RET_OK, w)
  | left + 1, b, w =>
    match main_body f ino bsz f_sz max_blk b w with
    | .undefined => none
    | .stop ret w1 => some (ret, w1)
    | .next w1 => main_loop f ino bsz f_sz max_blk left (b + 1) w1

/-- The file size of line 174: `((uint64_t)le32(i_size_high) << 32) | le32(i_size)`. -/
def file_size (ino : ext2_inode) : Nat :=
  (le32 ino.i_size_high <<< 32) ||| le32 ino.i_size

/-- The loop bound of line 175: `(f_sz + bsz - 1) / bsz` in 64-bit unsigned arithmetic. -/
def max_blk (f_sz bsz : Nat) : Nat := sub64 (add64 f_sz bsz) 1 / bsz

/-- Lines 173 to 217 of `main`: the extraction of the loaded inode. -/
def main_extract (f : FILE) (ino : ext2_inode) (bsz : Nat) (w : World) :
    Option (RetCode × World) :=
  let f_sz := file_size ino
  main_loop f ino bsz f_sz (max_blk f_sz bsz) (max_blk f_sz bsz) 0 w

/-! ## The specification's reading of blocks and entries

These definitions follow the words of the specification, not the code: a block number `n`
names the `block_size` bytes of the image at byte offset `n * block_size`, the product
being that of the integers. -/

/-- The specification's block `n`: the `bsz` bytes of the image at offset `n * bsz`. -/
def spec_block (f : FILE) (bsz n : Nat) : List Byte :=
  (List.range bsz).map fun k => f.byte (n * bsz + k)

/-- The specification's "entry `idx` of pointer block `n`": the little-endian 32-bit value at
offset `n * bsz + 4 * idx` of the image, when block `n` lies inside the image. -/
def spec_entry (f : FILE) (bsz n idx : Nat) : Option Nat :=
  if n * bsz + bsz ≤ f.size then
    some ((f.byte (n * bsz + 4 * idx)).val + 256 * (f.byte (n * bsz + 4 * idx + 1)).val
      + 65536 * (f.byte (n * bsz + 4 * idx + 2)).val
      + 16777216 * (f.byte (n * bsz + 4 * idx + 3)).val)
  else none

/-- The specification's content `B(b)` of a logical block resolved to physical block `pb`:
`bsz` zero bytes for a hole, block `pb` of the image otherwise. -/
def spec_content (f : FILE) (bsz pb : Nat) : List Byte :=
  if pb = 0 then List.replicate bsz 0 else spec_block f bsz pb

/-- What the loop body of `main` emits from for a block resolved to `pb`: `bsz` zero bytes
for a hole, otherwise the `bsz` bytes it reads at the 32-bit offset `mul32 pb bsz`. -/
def code_content (f : FILE) (bsz pb : Nat) : List Byte :=
  if pb = 0 then List.replicate bsz 0
  else (List.range bsz).map fun k => f.byte (mul32 pb bsz + k)

/-- The physical block `get_blk` resolves logical block `b` to, as called from `main`, in a
run where every allocation succeeds; `none` when `get_blk` does not return `RET_OK`. -/
def resolve (f : FILE) (ino : ext2_inode) (bsz b : Nat) : Option Nat :=
  match get_blk f (b % 4294967296) ino bsz ⟨[], [], [], none⟩ with
  | .ok pb _ => some pb
  | _ => none

/-- The specification's output: the first `file_size` bytes of the concatenation of the
contents `B(b)` for `b = 0, ..., n - 1`. -/
def spec_output (f : FILE) (ino : ext2_inode) (bsz n : Nat) : List Byte :=
  (((List.range n).map fun b => spec_content f bsz ((resolve f ino bsz b).getD 0)).flatten).take
    (file_size ino)

/-! ## The start of `main`

The structures of `ext2fs/ext2_fs.h` are not part of the repository. The embedding takes
their decoding as given: an `Image` carries, next to the raw bytes, the superblock, the
group descriptors and the inodes the program finds when it reads them. -/

/-- The numeric value of a status code (`enum RetCode`), which is the exit status. -/
def RetCode.toNat : RetCode → Nat
  | .RET_OK => 0
  | .RET_IO_ERROR => 1
  | .RET_INVALID_FS => 2
  | .RET_MEM_ERROR => 3
  | .RET_INVALID_INODE => 4

/-- The fields of `struct ext2_super_block` that the program uses, each holding the value
of the on-disk little-endian field. -/
structure ext2_super_block where
  s_inodes_count : Nat
  s_blocks_count : Nat
  s_log_block_size : Nat
  s_blocks_per_group : Nat
  s_inodes_per_group : Nat
  s_magic : Nat
  s_inode_size : Nat

/-- The field of `struct ext2_group_desc` that the program uses. -/
structure ext2_group_desc where
  bg_inode_table : Nat

/-- The image as `main` sees it: the raw bytes, the superblock stored at offset 1024, the
group descriptor stored at each byte offset, and the inode found in a buffer of the given
size filled from the given byte offset (`none` when the fields the program uses do not
lie inside a buffer of that size). -/
structure Image where
  file : FILE
  sb : ext2_super_block
  gd : Nat → ext2_group_desc
  inode : Nat → Nat → Option ext2_inode

/-- The ext2 signature (`EXT2_SUPER_MAGIC` of `ext2fs/ext2_fs.h`), `0xEF53`. -/
def EXT2_SUPER_MAGIC : Nat := 61267

/-- The value of `sizeof(struct ext2_super_block)`. -/
def sizeof_super_block : Nat := 1024

/-- The value of `sizeof(struct ext2_group_desc)`. -/
def sizeof_group_desc : Nat := 32

/-- The value of a 16-bit little-endian field (`le16`, line 11). -/
def le16 (v : Nat) : Nat := v % 65536

/-- The expression `1024 << n` of line 127, a shift of the `int` 1024: undefined when the
count reaches the width of `int` or the result is not representable in `int`. -/
def shl_1024 (n : Nat) : Option Nat :=
  if n < 32 then
    if 1024 * 2 ^ n < 2147483648 then some (1024 * 2 ^ n) else none
  else none

/-- Division of two `uint32_t` values, undefined for a zero divisor. -/
def div32 (a b : Nat) : Option Nat :=
  if b = 0 then none else some (a / b)

/-- The function `main` (lines 96 to 224). `argc` is the argument count, `image` the image
`fopen` gives (`none` when it fails), `ino_arg` the value of `atoi(argv[2])` as a
`uint32_t`. The result is the status returned together with the world reached, or `none`
for undefined behaviour. A failed allocation of the inode buffer jumps to `cleanup`
through `CHECK_NULL` with `ret` still `RET_OK`. -/
def main (argc : Nat) (image : Option Image) (ino_arg : Nat) (w : World) :
    Option (RetCode × World) :=
  -- lines 103 to 106
  if argc ≠ 3 then some (.RET_INVALID_INODE, w)
  else
    -- lines 108 to 111
    match image with
    | none => some (.RET_IO_ERROR, w)
    | some img =>
      -- lines 113 to 119
      match fseek_fread img.file 1024 sizeof_super_block w with
      | (none, w1) => some (.RET_IO_ERROR, w1)
      | (some _, w1) =>
        -- lines 121 to 125
        if le16 img.sb.s_magic ≠ EXT2_SUPER_MAGIC then some (.RET_INVALID_FS, w1)
        else
          -- lines 127 to 132
          match shl_1024 (le32 img.sb.s_log_block_size) with
          | none => none
          | some shifted =>
            let bsz := shifted % 4294967296
            if bsz < 1024 ∨ bsz > 4096 then some (.RET_INVALID_FS, w1)
            else
              -- lines 134 and 135
              let ino_num := ino_arg % 4294967296
              match div32 (le32 img.sb.s_blocks_count) (le32 img.sb.s_blocks_per_group) with
              | none => none
              | some max_groups =>
                -- lines 136 to 140
                if ino_num = 0 ∨ ino_num > le32 img.sb.s_inodes_count then
                  some (.RET_INVALID_INODE, w1)
                else
                  -- lines 142 to 148
                  let ino_per_grp := le32 img.sb.s_inodes_per_group
                  match div32 (sub32 ino_num 1) ino_per_grp with
                  | none => none
                  | some grp =>
                    if grp ≥ max_groups then some (.RET_INVALID_INODE, w1)
                    else
                      -- lines 150 to 157
                      let gdt_blk := if bsz = 1024 then 2 else 1
                      let gd_off := mul32 gdt_blk bsz + grp * sizeof_group_desc
                      match fseek_fread img.file gd_off sizeof_group_desc w1 with
                      | (none, w2) => some (.RET_IO_ERROR, w2)
                      | (some _, w2) =>
                        -- lines 159 to 161
                        let ino_sz := le32 img.sb.s_inode_size
                        match malloc w2 with
                        | (false, w3) => some (.RET_OK, w3)
                        | (true, w3) =>
                          -- lines 163 to 171
                          let ino_tbl := le32 (img.gd gd_off).bg_inode_table
                          let ino_idx := sub32 ino_num 1 % ino_per_grp
                          let ino_off := add32 (mul32 ino_tbl bsz) (mul32 ino_idx ino_sz)
                          match fseek_fread img.file ino_off ino_sz w3 with
                          | (none, w4) => some (.RET_IO_ERROR, w4)
                          | (some _, w4) =>
                            -- lines 173 to 217
                            match img.inode ino_off ino_sz with
                            | none => none
                            | some ino => main_extract img.file ino bsz w4

/-! ## The path of a logical block and the iterations of the loop -/

/-- The slot of `i_block` that `get_blk` starts from for `log_blk` and the entry indices it
passes to `rd_indir`, in order (lines 56 to 90), in the arithmetic of `uint32_t`. -/
def get_blk_path (log_blk bsz : Nat) : Fin 15 × List Nat :=
  let ents := bsz / 4
  if h : log_blk < EXT2_NDIR_BLOCKS then
    (⟨log_blk, Nat.lt_trans h (by decide)⟩, [])
  else if log_blk < add32 EXT2_NDIR_BLOCKS ents then
    (EXT2_IND_BLOCK, [sub32 log_blk EXT2_NDIR_BLOCKS])
  else if log_blk < add32 (add32 EXT2_NDIR_BLOCKS ents) (mul32 ents ents) then
    let block := sub32 log_blk (add32 EXT2_NDIR_BLOCKS ents)
    (EXT2_DIND_BLOCK, [block / ents, block % ents])
  else
    let block := sub32 log_blk (add32 (add32 EXT2_NDIR_BLOCKS ents) (mul32 ents ents))
    (EXT2_TIND_BLOCK, [block / mul32 ents ents, (block / ents) % ents, block % ents])

/-- A chain of calls of `rd_indir`: from pointer `p`, one call for each index, each on the
pointer the call before has stored. -/
def rd_chain (f : FILE) (bsz : Nat) : Nat → List Nat → World → Res
  | p, [], w => .ok p w
  | p, idx :: rest, w => (rd_indir f p idx bsz w).andThen fun q w1 => rd_chain f bsz q rest w1

/-- The world in which the reconstruction loop starts iteration `n`, when it gets there:
`none` when an earlier iteration left the loop. -/
def main_reach (f : FILE) (ino : ext2_inode) (bsz f_sz max_blk : Nat) :
    Nat → World → Option World
  | 0, w => some w
  | n + 1, w =>
    match main_reach f ino bsz f_sz max_blk n w with
    | none => none
    | some wn =>
      match main_body f ino bsz f_sz max_blk n wn with
      | .next w1 => some w1
      | _ => none

/-! ## Concrete inputs -/

/-- The world at the start of a run: nothing read, nothing written, every allocation
succeeds, no limit on the output. -/
def world0 : World := ⟨[], [], [], none⟩

/-- An image of 4 GiB + 1 KiB, that is blocks 0 to 4194304 of 1024 bytes. Entry 0 of block 0
is 1, of block 1 is 7, of block 2 is 9, of block 7 is 13, of block 9 is 11, and of block
4194304 (byte offset `2^32`) is 2; every other byte is 0. -/
def image_4g : FILE :=
  ⟨4294968320, fun off =>
    if off = 0 then 1
    else if off = 1024 then 7
    else if off = 2048 then 9
    else if off = 7168 then 13
    else if off = 9216 then 11
    else if off = 4294967296 then 2
    else 0⟩

/-- An image of three blocks of 1024 bytes: entry 0 of block 1 is 2, every other byte is 0. -/
def image_3k : FILE := ⟨3072, fun off => if off = 1024 then 2 else 0⟩

/-- An inode of size 0 whose double-indirect pointer is block 2 and whose triple-indirect
pointer is block 1, every other pointer being 0. -/
def inode_chain : ext2_inode :=
  ⟨0, 0, fun k => if k.val = 13 then 2 else if k.val = 14 then 1 else 0⟩

/-- An inode of the given size (low and high half) whose block pointers are 0 except for
slot `slot`, which holds `ptr`. -/
def inode_with (lo hi : Nat) (slot ptr : Nat) : ext2_inode :=
  ⟨lo, hi, fun k => if k.val = slot then ptr else 0⟩

/-- A superblock with the ext2 signature, 1024-byte blocks, one group of 8192 blocks and 16
inodes of 128 bytes. -/
def sb_small : ext2_super_block := ⟨16, 8192, 0, 8192, 16, 61267, 128⟩

/-- An image over the three blocks of `image_3k` with the given superblock, whose group
descriptors put the inode table in block 1 and in which every inode read gives the given
inode. -/
def image_of (sb : ext2_super_block) (ino : ext2_inode) : Image :=
  ⟨image_3k, sb, fun _ => ⟨1⟩, fun _ _ => some ino⟩

/-! ## Theorems -/

set_option maxRecDepth 100000

/-! ### The tiers of `get_blk` -/

/-- A zero pointer is a hole: `rd_indir` stores 0 and touches nothing. -/
theorem rd_indir_zero (f : FILE) (idx bsz : Nat) (w : World) :
    rd_indir f 0 idx bsz w = .ok 0 w := by
  simp [rd_indir]

/-- For the three block sizes the 32-bit tier bounds of `get_blk` do not wrap. -/
theorem tier_bounds (bsz : Nat) (hb : bsz = 1024 ∨ bsz = 2048 ∨ bsz = 4096) :
    add32 EXT2_NDIR_BLOCKS (bsz / 4) = 12 + bsz / 4 ∧
    mul32 (bsz / 4) (bsz / 4) = (bsz / 4) * (bsz / 4) ∧
    add32 (add32 EXT2_NDIR_BLOCKS (bsz / 4)) (mul32 (bsz / 4) (bsz / 4))
      = 12 + bsz / 4 + (bsz / 4) * (bsz / 4) ∧
    add32 (12 + bsz / 4) ((bsz / 4) * (bsz / 4)) = 12 + bsz / 4 + (bsz / 4) * (bsz / 4) := by
  rcases hb with rfl | rfl | rfl <;> decide

/-! ### What `rd_indir` does -/

/-- What a successful call of `rd_indir` has done. -/
theorem rd_indir_ok_inv (f : FILE) (indir idx bsz v : Nat) (w w1 : World)
    (h : rd_indir f indir idx bsz w = .ok v w1) :
    (indir = 0 ∧ v = 0 ∧ w1 = w) ∨
    (indir ≠ 0 ∧ ∃ wm, malloc w = (true, wm) ∧
      (0 < bsz ∧ mul32 indir bsz + bsz ≤ f.size) ∧
      w1 = { wm with reads := wm.reads ++ [mul32 indir bsz] } ∧
      buf_le32 ((List.range bsz).map fun k => f.byte (mul32 indir bsz + k)) idx = some v) := by
  unfold rd_indir at h
  by_cases h0 : indir = 0
  · left
    simp only [h0, if_true] at h
    cases h
    exact ⟨h0, rfl, rfl⟩
  · right
    simp only [h0, if_false] at h
    refine ⟨h0, ?_⟩
    rcases hm : malloc w with ⟨b, wm⟩
    rw [hm] at h
    cases b
    · simp at h
    · refine ⟨wm, rfl, ?_⟩
      simp only [fseek_fread] at h
      by_cases hsz : 0 < bsz ∧ mul32 indir bsz + bsz ≤ f.size
      · simp only [hsz, and_self, if_true] at h
        refine ⟨hsz, ?_⟩
        cases hb : buf_le32 ((List.range bsz).map fun k => f.byte (mul32 indir bsz + k)) idx with
        | none => rw [hb] at h; simp at h
        | some v2 =>
          rw [hb] at h
          simp only [Res.ok.injEq] at h
          exact ⟨h.2.symm, by rw [h.1]⟩
      · simp only [hsz, if_false] at h
        simp at h

/-- A call of `malloc` changes nothing but the list of outcomes to come. -/
theorem malloc_frame (w wm : World) (b : Bool) (h : malloc w = (b, wm)) :
    wm.reads = w.reads ∧ wm.out = w.out ∧ wm.room = w.room ∧
    ((∀ x ∈ w.mallocs, x = true) → b = true ∧ ∀ x ∈ wm.mallocs, x = true) := by
  unfold malloc at h
  cases hm : w.mallocs with
  | nil =>
    rw [hm] at h
    simp only [Prod.mk.injEq] at h
    obtain ⟨h1, h2⟩ := h
    subst h2
    refine ⟨rfl, rfl, rfl, fun _ => ⟨h1.symm, ?_⟩⟩
    simp [hm]
  | cons c rest =>
    rw [hm] at h
    simp only [Prod.mk.injEq] at h
    obtain ⟨h1, h2⟩ := h
    subst h2
    refine ⟨rfl, rfl, rfl, fun hall => ⟨?_, ?_⟩⟩
    · rw [← h1]; exact hall c (by simp)
    · intro x hx; exact hall x (by simp [hx])

/-- A successful `rd_indir` leaves the output and its room alone and keeps allocations
succeeding. -/
theorem rd_indir_frame (f : FILE) (indir idx bsz v : Nat) (w w1 : World)
    (h : rd_indir f indir idx bsz w = .ok v w1) :
    w1.out = w.out ∧ w1.room = w.room ∧
    ((∀ x ∈ w.mallocs, x = true) → ∀ x ∈ w1.mallocs, x = true) := by
  rcases rd_indir_ok_inv f indir idx bsz v w w1 h with ⟨-, -, rfl⟩ | ⟨-, wm, hm, -, rfl, -⟩
  · exact ⟨rfl, rfl, fun h => h⟩
  · obtain ⟨-, h2, h3, h4⟩ := malloc_frame w wm true hm
    exact ⟨h2, h3, fun hall => (h4 hall).2⟩

/-- The value `rd_indir` stores does not depend on the world it runs in. -/
theorem rd_indir_indep (f : FILE) (indir idx bsz v : Nat) (w w1 u : World)
    (h : rd_indir f indir idx bsz w = .ok v w1) (hu : ∀ x ∈ u.mallocs, x = true) :
    ∃ u1, rd_indir f indir idx bsz u = .ok v u1 := by
  rcases rd_indir_ok_inv f indir idx bsz v w w1 h with ⟨h0, hv, -⟩ | ⟨h0, wm, -, hsz, -, hb⟩
  · subst h0; subst hv
    exact ⟨u, rd_indir_zero f idx bsz u⟩
  · rcases hm : malloc u with ⟨b, um⟩
    obtain ⟨-, -, -, h4⟩ := malloc_frame u um b hm
    obtain ⟨hb1, -⟩ := h4 hu
    subst hb1
    refine ⟨{ um with reads := um.reads ++ [mul32 indir bsz] }, ?_⟩
    simp only [rd_indir, h0, if_false, hm, fseek_fread, hsz, and_self, if_true, hb]

/-! ### Sequencing and the tiers -/

/-- Sequencing after a result that is `RET_OK`. -/
theorem andThen_ok (v : Nat) (w : World) (k : Nat → World → Res) :
    (Res.ok v w).andThen k = k v w := rfl

/-- Returning the stored value after a call gives the result of the call. -/
theorem andThen_ret (r : Res) : (r.andThen fun v w => .ok v w) = r := by
  cases r <;> rfl

/-- A sequence returns `RET_OK` exactly when both of its parts do. -/
theorem andThen_eq_ok (r : Res) (k : Nat → World → Res) (v : Nat) (w2 : World) :
    r.andThen k = .ok v w2 ↔ ∃ p w1, r = .ok p w1 ∧ k p w1 = .ok v w2 := by
  cases r with
  | ok p w1 =>
    constructor
    · intro h
      exact ⟨p, w1, rfl, h⟩
    · rintro ⟨q, u, hq, hk⟩
      cases hq
      exact hk
  | fail rc w1 => simp [Res.andThen]
  | undefined => simp [Res.andThen]

/-- In the single-indirect tier `get_blk` is one call of `rd_indir` on slot 12. -/
theorem get_blk_single_eq (f : FILE) (ino : ext2_inode) (bsz i : Nat) (w : World)
    (hb : bsz = 1024 ∨ bsz = 2048 ∨ bsz = 4096) (h1 : 12 ≤ i) (h2 : i < 12 + bsz / 4) :
    get_blk f i ino bsz w
      = rd_indir f (le32 (ino.i_block EXT2_IND_BLOCK)) (i - 12) bsz w := by
  obtain ⟨e1, -, -, -⟩ := tier_bounds bsz hb
  have h0 : ¬ i < EXT2_NDIR_BLOCKS := by simp [EXT2_NDIR_BLOCKS]; omega
  have hs : sub32 i EXT2_NDIR_BLOCKS = i - 12 := by
    simp only [sub32, EXT2_NDIR_BLOCKS]
    rcases hb with rfl | rfl | rfl <;> omega
  simp only [get_blk, h0, dite_false, e1, h2, if_true, hs, andThen_ret]

/-- In the double-indirect tier `get_blk` is two chained calls of `rd_indir` from slot 13. -/
theorem get_blk_double_eq (f : FILE) (ino : ext2_inode) (bsz i : Nat) (w : World)
    (hb : bsz = 1024 ∨ bsz = 2048 ∨ bsz = 4096) (h1 : 12 + bsz / 4 ≤ i)
    (h2 : i < 12 + bsz / 4 + bsz / 4 * (bsz / 4)) :
    get_blk f i ino bsz w
      = (rd_indir f (le32 (ino.i_block EXT2_DIND_BLOCK))
            ((i - (12 + bsz / 4)) / (bsz / 4)) bsz w).andThen fun tmp w1 =>
        rd_indir f tmp ((i - (12 + bsz / 4)) % (bsz / 4)) bsz w1 := by
  obtain ⟨e1, e2, -, e3⟩ := tier_bounds bsz hb
  have h0 : ¬ i < EXT2_NDIR_BLOCKS := by simp [EXT2_NDIR_BLOCKS]; omega
  have h0b : ¬ i < 12 + bsz / 4 := by omega
  have hs : sub32 i (12 + bsz / 4) = i - (12 + bsz / 4) := by
    simp only [sub32]
    rcases hb with rfl | rfl | rfl <;> omega
  have hE : bsz / 4 ≠ 0 := by rcases hb with rfl | rfl | rfl <;> decide
  simp only [get_blk, h0, dite_false, e1, e2, e3, h0b, if_false, h2, if_true, hs, hE,
    andThen_ret]

/-- From the triple-indirect tier on `get_blk` is three chained calls of `rd_indir` from
slot 14. -/
theorem get_blk_triple_eq (f : FILE) (ino : ext2_inode) (bsz i : Nat) (w : World)
    (hb : bsz = 1024 ∨ bsz = 2048 ∨ bsz = 4096)
    (h1 : 12 + bsz / 4 + bsz / 4 * (bsz / 4) ≤ i) (h2 : i < 4294967296) :
    get_blk f i ino bsz w
      = (rd_indir f (le32 (ino.i_block EXT2_TIND_BLOCK))
            ((i - (12 + bsz / 4 + bsz / 4 * (bsz / 4))) / (bsz / 4 * (bsz / 4))) bsz
            w).andThen fun tmp w1 =>
        (rd_indir f tmp
            (((i - (12 + bsz / 4 + bsz / 4 * (bsz / 4))) / (bsz / 4)) % (bsz / 4)) bsz
            w1).andThen fun tmp2 w2 =>
        rd_indir f tmp2 ((i - (12 + bsz / 4 + bsz / 4 * (bsz / 4))) % (bsz / 4)) bsz w2 := by
  obtain ⟨e1, e2, -, e3⟩ := tier_bounds bsz hb
  have h0 : ¬ i < EXT2_NDIR_BLOCKS := by
    simp [EXT2_NDIR_BLOCKS]; rcases hb with rfl | rfl | rfl <;> omega
  have h0b : ¬ i < 12 + bsz / 4 := by rcases hb with rfl | rfl | rfl <;> omega
  have h0c : ¬ i < 12 + bsz / 4 + bsz / 4 * (bsz / 4) := by omega
  have hs : sub32 i (12 + bsz / 4 + bsz / 4 * (bsz / 4))
      = i - (12 + bsz / 4 + bsz / 4 * (bsz / 4)) := by
    simp only [sub32]
    rcases hb with rfl | rfl | rfl <;> omega
  have hE : bsz / 4 ≠ 0 := by rcases hb with rfl | rfl | rfl <;> decide
  have hE2 : bsz / 4 * (bsz / 4) ≠ 0 := by rcases hb with rfl | rfl | rfl <;> decide
  simp only [get_blk, h0, dite_false, e1, e2, e3, h0b, h0c, if_false, hs, hE, hE2, or_self,
    andThen_ret]

/-! ### Frame and independence of `get_blk` -/

/-- In the direct tier `get_blk` returns the slot of the inode and touches nothing. -/
theorem get_blk_direct_eq (f : FILE) (ino : ext2_inode) (bsz i : Nat) (w : World)
    (h : i < 12) :
    get_blk f i ino bsz w = .ok (le32 (ino.i_block ⟨i, Nat.lt_trans h (by decide)⟩)) w := by
  have h2 : i < EXT2_NDIR_BLOCKS := h
  simp [get_blk, h2]

/-- A successful `get_blk` leaves the output and its room alone and keeps allocations
succeeding. -/
theorem get_blk_frame (f : FILE) (ino : ext2_inode) (bsz i v : Nat) (w w1 : World)
    (hb : bsz = 1024 ∨ bsz = 2048 ∨ bsz = 4096) (hi : i < 4294967296)
    (h : get_blk f i ino bsz w = .ok v w1) :
    w1.out = w.out ∧ w1.room = w.room ∧
    ((∀ x ∈ w.mallocs, x = true) → ∀ x ∈ w1.mallocs, x = true) := by
  by_cases c0 : i < 12
  · rw [get_blk_direct_eq f ino bsz i w c0] at h
    cases h
    exact ⟨rfl, rfl, fun h => h⟩
  by_cases c1 : i < 12 + bsz / 4
  · rw [get_blk_single_eq f ino bsz i w hb (by omega) c1] at h
    exact rd_indir_frame _ _ _ _ _ _ _ h
  by_cases c2 : i < 12 + bsz / 4 + bsz / 4 * (bsz / 4)
  · rw [get_blk_double_eq f ino bsz i w hb (by omega) c2, andThen_eq_ok] at h
    obtain ⟨p, u, h1, h2⟩ := h
    obtain ⟨a1, a2, a3⟩ := rd_indir_frame _ _ _ _ _ _ _ h1
    obtain ⟨b1, b2, b3⟩ := rd_indir_frame _ _ _ _ _ _ _ h2
    exact ⟨b1.trans a1, b2.trans a2, fun hall => b3 (a3 hall)⟩
  · rw [get_blk_triple_eq f ino bsz i w hb (by omega) hi, andThen_eq_ok] at h
    obtain ⟨p, u, h1, h2⟩ := h
    rw [andThen_eq_ok] at h2
    obtain ⟨q, u2, h2, h3⟩ := h2
    obtain ⟨a1, a2, a3⟩ := rd_indir_frame _ _ _ _ _ _ _ h1
    obtain ⟨b1, b2, b3⟩ := rd_indir_frame _ _ _ _ _ _ _ h2
    obtain ⟨c1, c2, c3⟩ := rd_indir_frame _ _ _ _ _ _ _ h3
    exact ⟨c1.trans (b1.trans a1), c2.trans (b2.trans a2), fun hall => c3 (b3 (a3 hall))⟩

/-- The block `get_blk` resolves to does not depend on the world it runs in. -/
theorem get_blk_indep (f : FILE) (ino : ext2_inode) (bsz i v : Nat) (w w1 u : World)
    (hb : bsz = 1024 ∨ bsz = 2048 ∨ bsz = 4096) (hi : i < 4294967296)
    (h : get_blk f i ino bsz w = .ok v w1) (hu : ∀ x ∈ u.mallocs, x = true) :
    ∃ u1, get_blk f i ino bsz u = .ok v u1 := by
  by_cases c0 : i < 12
  · rw [get_blk_direct_eq f ino bsz i w c0] at h
    cases h
    exact ⟨u, get_blk_direct_eq f ino bsz i u c0⟩
  by_cases c1 : i < 12 + bsz / 4
  · rw [get_blk_single_eq f ino bsz i w hb (by omega) c1] at h
    rw [get_blk_single_eq f ino bsz i u hb (by omega) c1]
    exact rd_indir_indep _ _ _ _ _ _ _ _ h hu
  by_cases c2 : i < 12 + bsz / 4 + bsz / 4 * (bsz / 4)
  · rw [get_blk_double_eq f ino bsz i w hb (by omega) c2, andThen_eq_ok] at h
    obtain ⟨p, x, h1, h2⟩ := h
    obtain ⟨u1, g1⟩ := rd_indir_indep _ _ _ _ _ _ _ u h1 hu
    obtain ⟨u2, g2⟩ := rd_indir_indep _ _ _ _ _ _ _ u1 h2
      ((rd_indir_frame _ _ _ _ _ _ _ g1).2.2 hu)
    refine ⟨u2, ?_⟩
    rw [get_blk_double_eq f ino bsz i u hb (by omega) c2, andThen_eq_ok]
    exact ⟨p, u1, g1, g2⟩
  · rw [get_blk_triple_eq f ino bsz i w hb (by omega) hi, andThen_eq_ok] at h
    obtain ⟨p, x, h1, h2⟩ := h
    rw [andThen_eq_ok] at h2
    obtain ⟨q, y, h2, h3⟩ := h2
    obtain ⟨u1, g1⟩ := rd_indir_indep _ _ _ _ _ _ _ u h1 hu
    have hu1 := (rd_indir_frame _ _ _ _ _ _ _ g1).2.2 hu
    obtain ⟨u2, g2⟩ := rd_indir_indep _ _ _ _ _ _ _ u1 h2 hu1
    have hu2 := (rd_indir_frame _ _ _ _ _ _ _ g2).2.2 hu1
    obtain ⟨u3, g3⟩ := rd_indir_indep _ _ _ _ _ _ _ u2 h3 hu2
    refine ⟨u3, ?_⟩
    rw [get_blk_triple_eq f ino bsz i u hb (by omega) hi, andThen_eq_ok]
    refine ⟨p, u1, g1, ?_⟩
    rw [andThen_eq_ok]
    exact ⟨q, u2, g2, g3⟩

/-- What `main` resolves a logical block to is what `resolve` says. -/
theorem resolve_of_get_blk (f : FILE) (ino : ext2_inode) (bsz b v : Nat) (w w1 : World)
    (hb : bsz = 1024 ∨ bsz = 2048 ∨ bsz = 4096)
    (h : get_blk f (b % 4294967296) ino bsz w = .ok v w1) :
    resolve f ino bsz b = some v := by
  obtain ⟨u1, hu⟩ := get_blk_indep f ino bsz (b % 4294967296) v w w1 ⟨[], [], [], none⟩ hb
    (Nat.mod_lt _ (by decide)) h (by simp)
  simp only [resolve, hu]

/-! ### Writes and error codes -/

/-- A call of `fwrite` that wrote all `len` bytes appended the first `len` bytes of the
buffer, and the buffer held that many. -/
theorem fwrite_full (dat : List Byte) (len n : Nat) (w w1 : World)
    (h : fwrite dat len w = (n, w1)) (hn : n = len) :
    w1.out = w.out ++ dat.take len ∧ (dat.take len).length = len ∧
    w1.reads = w.reads ∧ w1.mallocs = w.mallocs := by
  unfold fwrite at h
  cases hr : w.room with
  | none =>
    simp only [hr, Prod.mk.injEq] at h
    obtain ⟨h1, h2⟩ := h
    subst h2
    exact ⟨rfl, by omega, rfl, rfl⟩
  | some r =>
    simp only [hr, Prod.mk.injEq] at h
    obtain ⟨h1, h2⟩ := h
    subst h2
    have hl : (dat.take len).length ≤ len := by simp
    have hl2 : ((dat.take len).take r).length ≤ (dat.take len).length := by simp
    have e : (dat.take len).take r = dat.take len := by
      apply List.take_of_length_le
      have : ((dat.take len).take r).length = min r (dat.take len).length := List.length_take _ _
      omega
    refine ⟨?_, by rw [e] at h1; omega, rfl, rfl⟩
    show w.out ++ (dat.take len).take r = w.out ++ dat.take len
    rw [e]

/-- When `write_zeros` succeeds it has appended `n` zero bytes and done nothing else. -/
theorem write_zeros_ok (n : Nat) (w w1 : World) (h : write_zeros n w = (true, w1)) :
    w1.out = w.out ++ List.replicate n 0 ∧ w1.reads = w.reads ∧ w1.mallocs = w.mallocs := by
  induction n generalizing w with
  | zero =>
    simp only [write_zeros, Prod.mk.injEq, true_and] at h
    subst h
    simp
  | succ n ih =>
    unfold write_zeros at h
    rcases hf : fwrite [0] 1 w with ⟨c, u⟩
    rw [hf] at h
    by_cases hc : c = 1
    · subst hc
      simp only at h
      obtain ⟨a1, -, a3, a4⟩ := fwrite_full [0] 1 1 w u hf rfl
      obtain ⟨b1, b3, b4⟩ := ih u h
      refine ⟨?_, b3.trans a3, b4.trans a4⟩
      rw [b1, a1]
      simp [List.replicate_succ]
    · exfalso
      revert h
      split
      · rename_i heq
        simp only [Prod.mk.injEq] at heq
        exact absurd heq.1 hc
      · simp

/-- An error return of `rd_indir` is never `RET_OK`. -/
theorem rd_indir_fail_ne_ok (f : FILE) (indir idx bsz : Nat) (w w1 : World) (rc : RetCode)
    (h : rd_indir f indir idx bsz w = .fail rc w1) : rc ≠ .RET_OK := by
  unfold rd_indir at h
  split at h
  · simp at h
  · split at h
    · simp only [Res.fail.injEq] at h
      rw [← h.1]; decide
    · split at h
      · simp only [Res.fail.injEq] at h
        rw [← h.1]; decide
      · split at h <;> simp at h

/-! ### One iteration of the reconstruction loop -/

/-- A sequence returns an error exactly when one of its parts does. -/
theorem andThen_eq_fail (r : Res) (k : Nat → World → Res) (rc : RetCode) (w2 : World) :
    r.andThen k = .fail rc w2 ↔
      r = .fail rc w2 ∨ ∃ p w1, r = .ok p w1 ∧ k p w1 = .fail rc w2 := by
  cases r with
  | ok p w1 =>
    constructor
    · intro h
      exact Or.inr ⟨p, w1, rfl, h⟩
    · rintro (h | ⟨q, u, hq, hk⟩)
      · cases h
      · cases hq
        exact hk
  | fail rc1 w1 =>
    constructor
    · intro h
      exact Or.inl h
    · rintro (h | ⟨q, u, hq, hk⟩)
      · exact h
      · cases hq
  | undefined =>
    constructor
    · intro h
      cases h
    · rintro (h | ⟨q, u, hq, hk⟩)
      · cases h
      · cases hq

/-- An error return of `get_blk` is never `RET_OK`. -/
theorem get_blk_fail_ne_ok (f : FILE) (ino : ext2_inode) (bsz i : Nat) (w w1 : World)
    (rc : RetCode) (hb : bsz = 1024 ∨ bsz = 2048 ∨ bsz = 4096) (hi : i < 4294967296)
    (h : get_blk f i ino bsz w = .fail rc w1) : rc ≠ .RET_OK := by
  by_cases c0 : i < 12
  · rw [get_blk_direct_eq f ino bsz i w c0] at h
    cases h
  by_cases c1 : i < 12 + bsz / 4
  · rw [get_blk_single_eq f ino bsz i w hb (by omega) c1] at h
    exact rd_indir_fail_ne_ok _ _ _ _ _ _ _ h
  by_cases c2 : i < 12 + bsz / 4 + bsz / 4 * (bsz / 4)
  · rw [get_blk_double_eq f ino bsz i w hb (by omega) c2, andThen_eq_fail] at h
    rcases h with h | ⟨p, u, -, h⟩
    · exact rd_indir_fail_ne_ok _ _ _ _ _ _ _ h
    · exact rd_indir_fail_ne_ok _ _ _ _ _ _ _ h
  · rw [get_blk_triple_eq f ino bsz i w hb (by omega) hi, andThen_eq_fail] at h
    rcases h with h | ⟨p, u, -, h⟩
    · exact rd_indir_fail_ne_ok _ _ _ _ _ _ _ h
    · rw [andThen_eq_fail] at h
      rcases h with h | ⟨q, u2, -, h⟩
      · exact rd_indir_fail_ne_ok _ _ _ _ _ _ _ h
      · exact rd_indir_fail_ne_ok _ _ _ _ _ _ _ h

/-- What an iteration of the reconstruction loop that goes on to the next block has done:
it resolved the block, and either the block is a hole and `blk_len` zero bytes were
written with no further read, or one block was read at the 32-bit offset
`mul32 pb bsz` and its first `blk_len` bytes were written. -/
theorem main_body_next (f : FILE) (ino : ext2_inode) (bsz f_sz mb b : Nat) (w w1 : World)
    (hb : bsz = 1024 ∨ bsz = 2048 ∨ bsz = 4096)
    (h : main_body f ino bsz f_sz mb b w = .next w1) :
    ∃ pb wg, get_blk f (b % 4294967296) ino bsz w = .ok pb wg ∧
      ((pb = 0 ∧ w1.out = w.out ++ List.replicate (blk_len bsz f_sz mb b) 0 ∧
          w1.reads = wg.reads) ∨
       (pb ≠ 0 ∧ mul32 pb bsz + bsz ≤ f.size ∧
          w1.out = w.out ++
            ((List.range bsz).map fun k => f.byte (mul32 pb bsz + k)).take
              (blk_len bsz f_sz mb b) ∧
          w1.reads = wg.reads ++ [mul32 pb bsz])) ∧
      w1.out.length = w.out.length + blk_len bsz f_sz mb b ∧
      ((∀ x ∈ w.mallocs, x = true) → ∀ x ∈ w1.mallocs, x = true) := by
  unfold main_body at h
  cases hg : get_blk f (b % 4294967296) ino bsz w with
  | undefined => rw [hg] at h; simp at h
  | fail rc u => rw [hg] at h; simp at h
  | ok pb wg =>
    rw [hg] at h
    obtain ⟨g1, g2, g3⟩ := get_blk_frame f ino bsz _ pb w wg hb (Nat.mod_lt _ (by decide)) hg
    refine ⟨pb, wg, rfl, ?_⟩
    simp only at h
    by_cases hp : pb = 0
    · simp only [hp, if_true] at h
      rcases hz : write_zeros (blk_len bsz f_sz mb b) wg with ⟨ok, u⟩
      rw [hz] at h
      cases ok
      · simp at h
      · simp only [Step.next.injEq] at h
        subst h
        obtain ⟨z1, z2, z3⟩ := write_zeros_ok _ _ _ hz
        refine ⟨Or.inl ⟨hp, by rw [z1, g1], z2⟩, by rw [z1, g1]; simp, ?_⟩
        intro hall
        rw [z3]
        exact g3 hall
    · simp only [hp, if_false] at h
      rcases hm : malloc wg with ⟨ok, wm⟩
      rw [hm] at h
      obtain ⟨m1, m2, m3, m4⟩ := malloc_frame wg wm ok hm
      cases ok
      · simp at h
      · simp only [fseek_fread] at h
        have hpos : 0 < bsz := by rcases hb with rfl | rfl | rfl <;> decide
        by_cases hsz : mul32 pb bsz + bsz ≤ f.size
        · simp only [hpos, hsz, and_self, if_true] at h
          generalize hfw : fwrite ((List.range bsz).map fun k => f.byte (mul32 pb bsz + k))
            (blk_len bsz f_sz mb b)
            { reads := wm.reads ++ [mul32 pb bsz], out := wm.out, mallocs := wm.mallocs,
              room := wm.room } = res at h
          obtain ⟨n, w4⟩ := res
          simp only at h
          split at h
          · simp at h
          · rename_i hn
            simp only [Step.next.injEq] at h
            subst h
            have hn2 := not_not.mp hn
            obtain ⟨a1, a2, a3, a4⟩ := fwrite_full _ _ _ _ _ hfw hn2
            refine ⟨Or.inr ⟨hp, hsz, ?_, ?_⟩, ?_, ?_⟩
            · rw [a1]; simp only [m2, g1]
            · rw [a3]; simp only [m1]
            · rw [a1]; simp only [List.length_append, a2, m2, g1]
            · intro hall
              rw [a4]
              exact (m4 (g3 hall)).2
        · simp only [hsz, and_false, if_false] at h
          simp at h

/-- With every allocation succeeding, a jump to `cleanup` out of the loop body carries an
error code. -/
theorem main_body_stop_ne_ok (f : FILE) (ino : ext2_inode) (bsz f_sz mb b : Nat)
    (w w1 : World) (rc : RetCode) (hb : bsz = 1024 ∨ bsz = 2048 ∨ bsz = 4096)
    (hall : ∀ x ∈ w.mallocs, x = true)
    (h : main_body f ino bsz f_sz mb b w = .stop rc w1) : rc ≠ .RET_OK := by
  unfold main_body at h
  cases hg : get_blk f (b % 4294967296) ino bsz w with
  | undefined => rw [hg] at h; simp at h
  | fail rc2 u =>
    rw [hg] at h
    simp only [Step.stop.injEq] at h
    rw [← h.1]
    exact get_blk_fail_ne_ok f ino bsz _ w u rc2 hb (Nat.mod_lt _ (by decide)) hg
  | ok pb wg =>
    rw [hg] at h
    obtain ⟨g1, g2, g3⟩ := get_blk_frame f ino bsz _ pb w wg hb (Nat.mod_lt _ (by decide)) hg
    simp only at h
    by_cases hp : pb = 0
    · simp only [hp, if_true] at h
      split at h
      · simp only [Step.stop.injEq] at h
        rw [← h.1]; decide
      · simp at h
    · simp only [hp, if_false] at h
      rcases hm : malloc wg with ⟨ok, wm⟩
      rw [hm] at h
      obtain ⟨m1, m2, m3, m4⟩ := malloc_frame wg wm ok hm
      have hok := (m4 (g3 hall)).1
      subst hok
      simp only at h
      split at h
      · simp at h
      · split at h <;> simp at h

/-! ### The reconstruction loop -/

/-- The length of a block never exceeds the block size. -/
theorem blk_len_le (bsz f_sz mb b : Nat) (hb : 0 < bsz) : blk_len bsz f_sz mb b ≤ bsz := by
  unfold blk_len
  have := Nat.mod_lt f_sz hb
  simp only
  split_ifs <;> omega

/-- Every block but the last has the full length. -/
theorem blk_len_inner (bsz f_sz mb b : Nat) (hmb : mb < 18446744073709551616)
    (h : b + 1 < mb) : blk_len bsz f_sz mb b = bsz := by
  have hs : sub64 mb 1 = mb - 1 := by
    simp only [sub64]; omega
  unfold blk_len
  rw [hs]
  have hne : ¬ b = mb - 1 := by omega
  simp only [hne, if_false]
  split_ifs <;> rfl

/-- The last block has the length of the remainder, or the full length when that is 0. -/
theorem blk_len_last (bsz f_sz mb : Nat) (hmb : mb < 18446744073709551616) (h : 0 < mb) :
    blk_len bsz f_sz mb (mb - 1) = if f_sz % bsz = 0 then bsz else f_sz % bsz := by
  have hs : sub64 mb 1 = mb - 1 := by
    simp only [sub64]; omega
  unfold blk_len
  rw [hs]
  simp only [if_true]

/-- The content the loop body emits from has the length of a block. -/
theorem code_content_length (f : FILE) (bsz pb : Nat) :
    (code_content f bsz pb).length = bsz := by
  unfold code_content
  split_ifs <;> simp

/-- The content of the specification has the length of a block. -/
theorem spec_content_length (f : FILE) (bsz pb : Nat) :
    (spec_content f bsz pb).length = bsz := by
  unfold spec_content spec_block
  split_ifs <;> simp

/-- When the byte offset of a block fits in 32 bits, the loop body emits from the block the
specification names. -/
theorem code_content_eq_spec (f : FILE) (bsz pb : Nat) (h : pb * bsz < 4294967296) :
    code_content f bsz pb = spec_content f bsz pb := by
  unfold code_content spec_content spec_block mul32
  rw [Nat.mod_eq_of_lt h]

/-- An iteration that goes on has appended the first `blk_len` bytes of the content of the
block it resolved. -/
theorem main_body_next_content (f : FILE) (ino : ext2_inode) (bsz f_sz mb b : Nat)
    (w w1 : World) (hb : bsz = 1024 ∨ bsz = 2048 ∨ bsz = 4096)
    (h : main_body f ino bsz f_sz mb b w = .next w1) :
    ∃ pb, resolve f ino bsz b = some pb ∧
      w1.out = w.out ++ (code_content f bsz pb).take (blk_len bsz f_sz mb b) ∧
      ((∀ x ∈ w.mallocs, x = true) → ∀ x ∈ w1.mallocs, x = true) := by
  obtain ⟨pb, wg, hg, hc, -, hall⟩ := main_body_next f ino bsz f_sz mb b w w1 hb h
  refine ⟨pb, resolve_of_get_blk f ino bsz b pb w wg hb hg, ?_, hall⟩
  have hpos : 0 < bsz := by rcases hb with rfl | rfl | rfl <;> decide
  have hle := blk_len_le bsz f_sz mb b hpos
  rcases hc with ⟨hp, ho, -⟩ | ⟨hp, -, ho, -⟩
  · rw [ho]
    simp only [code_content, hp, if_true, List.take_replicate, Nat.min_eq_left hle]
  · rw [ho]
    simp only [code_content, hp, if_false]

/-- The reconstruction loop, run to the end with `RET_OK` and every allocation succeeding:
the output has grown by the contents of the blocks `b, ..., b + left - 1` in this order,
cut after the last block's length. -/
theorem main_loop_content (f : FILE) (ino : ext2_inode) (bsz f_sz mb : Nat)
    (hb : bsz = 1024 ∨ bsz = 2048 ∨ bsz = 4096) (hmb : mb < 18446744073709551616) :
    ∀ (left b : Nat) (w w1 : World), b + left = mb → (∀ x ∈ w.mallocs, x = true) →
      main_loop f ino bsz f_sz mb left b w = some (.RET_OK, w1) →
      w1.out = w.out ++
        (((List.range' b left).map fun k =>
            code_content f bsz ((resolve f ino bsz k).getD 0)).flatten).take
          (if left = 0 then 0 else (left - 1) * bsz + blk_len bsz f_sz mb (mb - 1)) := by
  intro left
  induction left with
  | zero =>
    intro b w w1 _ _ h
    simp only [main_loop, Option.some.injEq, Prod.mk.injEq, true_and] at h
    subst h
    simp
  | succ n ih =>
    intro b w w1 hsum hall h
    unfold main_loop at h
    cases hs : main_body f ino bsz f_sz mb b w with
    | undefined => rw [hs] at h; simp at h
    | stop rc u =>
      rw [hs] at h
      simp only [Option.some.injEq, Prod.mk.injEq] at h
      exact absurd h.1 (main_body_stop_ne_ok f ino bsz f_sz mb b w u rc hb hall hs)
    | next u =>
      rw [hs] at h
      simp only at h
      obtain ⟨pb, hres, hout, hall2⟩ := main_body_next_content f ino bsz f_sz mb b w u hb hs
      have ih2 := ih (b + 1) u w1 (by omega) (hall2 hall) h
      rw [ih2, hout, List.append_assoc]
      congr 1
      simp only [List.range'_succ, List.map_cons, List.flatten_cons, hres, Option.getD_some,
        Nat.succ_ne_zero, if_false, Nat.add_sub_cancel]
      by_cases hn : n = 0
      · subst hn
        have hbm : b = mb - 1 := by omega
        simp only [List.range'_zero, List.map_nil, List.flatten_nil, List.append_nil,
          if_true, List.take_nil, Nat.zero_mul, Nat.zero_add, hbm]
      · have hfull : blk_len bsz f_sz mb b = bsz := blk_len_inner bsz f_sz mb b hmb (by omega)
        have hlen := code_content_length f bsz pb
        simp only [hn, if_false, hfull]
        rw [List.take_of_length_le (by omega)]
        have e : n * bsz + blk_len bsz f_sz mb (mb - 1)
            = (code_content f bsz pb).length + ((n - 1) * bsz + blk_len bsz f_sz mb (mb - 1)) := by
          rw [hlen]
          have : n * bsz = bsz + (n - 1) * bsz := by
            obtain ⟨m, rfl⟩ := Nat.exists_eq_succ_of_ne_zero hn
            simp [Nat.succ_mul, Nat.add_comm]
          omega
        rw [e, List.take_append]

/-! ### File size and loop bound -/

/-- The 64-bit file size is the high half times `2^32` plus the low half. -/
theorem file_size_eq (ino : ext2_inode) :
    file_size ino = le32 ino.i_size_high * 4294967296 + le32 ino.i_size := by
  unfold file_size
  have hlo : le32 ino.i_size < 2 ^ 32 := by
    unfold le32
    exact Nat.mod_lt _ (by decide)
  rw [Nat.shiftLeft_eq, Nat.mul_comm, ← Nat.mul_add_lt_is_or hlo, Nat.mul_comm]

/-- The file size fits in 64 bits. -/
theorem file_size_lt (ino : ext2_inode) : file_size ino < 18446744073709551616 := by
  rw [file_size_eq]
  have h1 : le32 ino.i_size_high < 4294967296 := Nat.mod_lt _ (by decide)
  have h2 : le32 ino.i_size < 4294967296 := Nat.mod_lt _ (by decide)
  omega

/-- The loop bound fits in 64 bits. -/
theorem max_blk_lt (f_sz bsz : Nat) : max_blk f_sz bsz < 18446744073709551616 := by
  unfold max_blk sub64
  exact Nat.lt_of_le_of_lt (Nat.div_le_self _ _) (Nat.mod_lt _ (by decide))

/-- When `f_sz + bsz - 1` does not overflow 64 bits, the loop bound is the number of blocks
the file size calls for, and the lengths of the blocks add up to the file size. -/
theorem max_blk_total (f_sz bsz : Nat) (hb : bsz = 1024 ∨ bsz = 2048 ∨ bsz = 4096)
    (h : f_sz + bsz ≤ 18446744073709551616) :
    max_blk f_sz bsz = (f_sz + bsz - 1) / bsz ∧
    (if max_blk f_sz bsz = 0 then 0
      else (max_blk f_sz bsz - 1) * bsz
        + blk_len bsz f_sz (max_blk f_sz bsz) (max_blk f_sz bsz - 1)) = f_sz := by
  have hm : max_blk f_sz bsz = (f_sz + bsz - 1) / bsz := by
    unfold max_blk sub64 add64
    rcases hb with rfl | rfl | rfl <;> omega
  refine ⟨hm, ?_⟩
  by_cases h0 : max_blk f_sz bsz = 0
  · simp only [h0, if_true]
    rw [hm] at h0
    rcases hb with rfl | rfl | rfl <;> omega
  · simp only [h0, if_false]
    rw [blk_len_last bsz f_sz _ (max_blk_lt f_sz bsz) (by omega), hm]
    rcases hb with rfl | rfl | rfl <;> split_ifs <;> omega

/-! ### Extraction without overflow -/

/-- Extraction that ends with `RET_OK`, every allocation succeeding, the file size not within
a block of `2^64`, and every resolved block at a byte offset below `2^32`: the output has
grown by exactly the output of the specification. -/
theorem main_extract_content (f : FILE) (ino : ext2_inode) (bsz : Nat) (w w1 : World)
    (hb : bsz = 1024 ∨ bsz = 2048 ∨ bsz = 4096)
    (hall : ∀ x ∈ w.mallocs, x = true)
    (hsz : file_size ino + bsz ≤ 18446744073709551616)
    (hoff : ∀ b pb, b < max_blk (file_size ino) bsz → resolve f ino bsz b = some pb →
      pb * bsz < 4294967296)
    (h : main_extract f ino bsz w = some (.RET_OK, w1)) :
    w1.out = w.out ++ spec_output f ino bsz (max_blk (file_size ino) bsz) := by
  unfold main_extract at h
  have hc := main_loop_content f ino bsz (file_size ino) (max_blk (file_size ino) bsz) hb
    (max_blk_lt _ _) (max_blk (file_size ino) bsz) 0 w w1 (by omega) hall h
  rw [hc, (max_blk_total (file_size ino) bsz hb hsz).2]
  congr 1
  unfold spec_output
  rw [List.range_eq_range']
  congr 2
  apply List.map_congr_left
  intro k hk
  have hk2 : k < max_blk (file_size ino) bsz := by
    have := (List.mem_range'_1.mp hk).2
    omega
  apply code_content_eq_spec
  cases hr : resolve f ino bsz k with
  | none =>
    simp only [Option.getD_none, Nat.zero_mul]
    decide
  | some pb =>
    simp only [Option.getD_some]
    exact hoff k pb hk2 hr

/-- Extraction that ends with `RET_OK`, every allocation succeeding and the file size not
within a block of `2^64`, has written exactly `file_size` bytes. -/
theorem main_extract_length (f : FILE) (ino : ext2_inode) (bsz : Nat) (w w1 : World)
    (hb : bsz = 1024 ∨ bsz = 2048 ∨ bsz = 4096)
    (hall : ∀ x ∈ w.mallocs, x = true)
    (hsz : file_size ino + bsz ≤ 18446744073709551616)
    (h : main_extract f ino bsz w = some (.RET_OK, w1)) :
    w1.out.length = w.out.length + file_size ino := by
  unfold main_extract at h
  have hc := main_loop_content f ino bsz (file_size ino) (max_blk (file_size ino) bsz) hb
    (max_blk_lt _ _) (max_blk (file_size ino) bsz) 0 w w1 (by omega) hall h
  obtain ⟨hm, ht⟩ := max_blk_total (file_size ino) bsz hb hsz
  rw [hc, ht, List.length_append, List.length_take]
  have hl : ∀ n b, (((List.range' b n).map fun k =>
      code_content f bsz ((resolve f ino bsz k).getD 0)).flatten).length = n * bsz := by
    intro n
    induction n with
    | zero => intro b; simp
    | succ n ih =>
      intro b
      simp only [List.range'_succ, List.map_cons, List.flatten_cons, List.length_append,
        code_content_length, ih (b + 1)]
      rw [Nat.succ_mul]; omega
  rw [hl, hm]
  have : file_size ino ≤ (file_size ino + bsz - 1) / bsz * bsz := by
    rcases hb with rfl | rfl | rfl <;> omega
  omega

/-! ### Pointer-block entries without overflow -/

/-- Reading entry `idx` of a buffer filled from the image gives the little-endian value of
the four bytes at that place. -/
theorem buf_le32_read (f : FILE) (off bsz idx : Nat) (h : 4 * idx + 3 < bsz) :
    buf_le32 ((List.range bsz).map fun k => f.byte (off + k)) idx
      = some ((f.byte (off + 4 * idx)).val + 256 * (f.byte (off + 4 * idx + 1)).val
          + 65536 * (f.byte (off + 4 * idx + 2)).val
          + 16777216 * (f.byte (off + 4 * idx + 3)).val) := by
  have h0 : 4 * idx < bsz := by omega
  have h1 : 4 * idx + 1 < bsz := by omega
  have h2 : 4 * idx + 2 < bsz := by omega
  simp only [buf_le32, List.getElem?_map, List.getElem?_range h0, List.getElem?_range h1,
    List.getElem?_range h2, List.getElem?_range h, Option.map_some', Nat.add_assoc]

/-- A call of `rd_indir` on a non-zero pointer whose byte offset fits in 32 bits, with the
allocation succeeding and the index inside the block: one read at `indir * bsz`, and the
value stored is the entry the specification names. -/
theorem rd_indir_entry (f : FILE) (indir idx bsz v : Nat) (w : World)
    (hb : bsz = 1024 ∨ bsz = 2048 ∨ bsz = 4096)
    (h0 : indir ≠ 0) (hall : ∀ x ∈ w.mallocs, x = true)
    (hoff : indir * bsz < 4294967296) (hidx : idx < bsz / 4)
    (he : spec_entry f bsz indir idx = some v) :
    ∃ w1, rd_indir f indir idx bsz w = .ok v w1 ∧ w1.reads = w.reads ++ [indir * bsz] ∧
      w1.out = w.out ∧ ∀ x ∈ w1.mallocs, x = true := by
  unfold spec_entry at he
  have hm32 : mul32 indir bsz = indir * bsz := Nat.mod_eq_of_lt hoff
  by_cases hsz : indir * bsz + bsz ≤ f.size
  · simp only [hsz, if_true, Option.some.injEq] at he
    rcases hm : malloc w with ⟨b, wm⟩
    obtain ⟨m1, m2, -, m4⟩ := malloc_frame w wm b hm
    obtain ⟨hbt, hall2⟩ := m4 hall
    subst hbt
    have h4 : 4 * idx + 3 < bsz := by rcases hb with rfl | rfl | rfl <;> omega
    have hpos : 0 < bsz := by omega
    refine ⟨{ wm with reads := wm.reads ++ [indir * bsz] }, ?_, ?_, m2, hall2⟩
    · simp only [rd_indir, h0, if_false, hm, fseek_fread, hm32, hpos, hsz, and_self, if_true,
        buf_le32_read f (indir * bsz) bsz idx h4, he]
    · simp only [m1]
  · simp only [hsz, if_false] at he
    cases he

/-! ### The indirect tiers without overflow -/

/-- Single-indirect tier, byte offset of the pointer block below `2^32`: `get_blk` makes one
read, at `p * bsz`, and returns entry `i - 12` of pointer block `p = i_block[12]`. -/
theorem get_blk_single_entry (f : FILE) (ino : ext2_inode) (bsz i v : Nat) (w : World)
    (hb : bsz = 1024 ∨ bsz = 2048 ∨ bsz = 4096) (h1 : 12 ≤ i) (h2 : i < 12 + bsz / 4)
    (hp : le32 (ino.i_block EXT2_IND_BLOCK) ≠ 0)
    (hoff : le32 (ino.i_block EXT2_IND_BLOCK) * bsz < 4294967296)
    (hall : ∀ x ∈ w.mallocs, x = true)
    (he : spec_entry f bsz (le32 (ino.i_block EXT2_IND_BLOCK)) (i - 12) = some v) :
    ∃ w1, get_blk f i ino bsz w = .ok v w1 ∧
      w1.reads = w.reads ++ [le32 (ino.i_block EXT2_IND_BLOCK) * bsz] := by
  rw [get_blk_single_eq f ino bsz i w hb h1 h2]
  obtain ⟨w1, r1, r2, -, -⟩ := rd_indir_entry f _ (i - 12) bsz v w hb hp hall hoff (by omega) he
  exact ⟨w1, r1, r2⟩

/-- Double-indirect tier, byte offsets of both pointer blocks below `2^32`: `get_blk` returns
entry `idx2` of the pointer block named by entry `idx1` of pointer block `i_block[13]`,
with `idx1 = block / E`, `idx2 = block % E` and `block = i - (12 + E)`. -/
theorem get_blk_double_entry (f : FILE) (ino : ext2_inode) (bsz i q v : Nat) (w : World)
    (hb : bsz = 1024 ∨ bsz = 2048 ∨ bsz = 4096) (h1 : 12 + bsz / 4 ≤ i)
    (h2 : i < 12 + bsz / 4 + bsz / 4 * (bsz / 4))
    (hp : le32 (ino.i_block EXT2_DIND_BLOCK) ≠ 0)
    (hoff : le32 (ino.i_block EXT2_DIND_BLOCK) * bsz < 4294967296)
    (hall : ∀ x ∈ w.mallocs, x = true)
    (he1 : spec_entry f bsz (le32 (ino.i_block EXT2_DIND_BLOCK))
      ((i - (12 + bsz / 4)) / (bsz / 4)) = some q)
    (hq : q ≠ 0) (hoffq : q * bsz < 4294967296)
    (he2 : spec_entry f bsz q ((i - (12 + bsz / 4)) % (bsz / 4)) = some v) :
    ∃ w1, get_blk f i ino bsz w = .ok v w1 ∧
      w1.reads = w.reads ++ [le32 (ino.i_block EXT2_DIND_BLOCK) * bsz, q * bsz] := by
  have hE : 0 < bsz / 4 := by rcases hb with rfl | rfl | rfl <;> decide
  have hi1 : (i - (12 + bsz / 4)) / (bsz / 4) < bsz / 4 := by
    rw [Nat.div_lt_iff_lt_mul hE]; omega
  rw [get_blk_double_eq f ino bsz i w hb h1 h2]
  obtain ⟨w1, r1, r2, -, a1⟩ := rd_indir_entry f _ _ bsz q w hb hp hall hoff hi1 he1
  obtain ⟨w2, s1, s2, -, -⟩ := rd_indir_entry f q _ bsz v w1 hb hq a1 hoffq
    (Nat.mod_lt _ hE) he2
  refine ⟨w2, ?_, ?_⟩
  · rw [r1, andThen_ok, s1]
  · rw [s2, r2]; simp

/-- Triple-indirect tier, byte offsets of the three pointer blocks below `2^32`: `get_blk`
returns the entry reached from `i_block[14]` through the indices `block / (E*E)`,
`(block / E) % E` and `block % E`, with `block = i - (12 + E + E*E)`. -/
theorem get_blk_triple_entry (f : FILE) (ino : ext2_inode) (bsz i q r v : Nat) (w : World)
    (hb : bsz = 1024 ∨ bsz = 2048 ∨ bsz = 4096)
    (h1 : 12 + bsz / 4 + bsz / 4 * (bsz / 4) ≤ i)
    (h2 : i < 12 + bsz / 4 + bsz / 4 * (bsz / 4) + bsz / 4 * (bsz / 4) * (bsz / 4))
    (hp : le32 (ino.i_block EXT2_TIND_BLOCK) ≠ 0)
    (hoff : le32 (ino.i_block EXT2_TIND_BLOCK) * bsz < 4294967296)
    (hall : ∀ x ∈ w.mallocs, x = true)
    (he1 : spec_entry f bsz (le32 (ino.i_block EXT2_TIND_BLOCK))
      ((i - (12 + bsz / 4 + bsz / 4 * (bsz / 4))) / (bsz / 4 * (bsz / 4))) = some q)
    (hq : q ≠ 0) (hoffq : q * bsz < 4294967296)
    (he2 : spec_entry f bsz q
      (((i - (12 + bsz / 4 + bsz / 4 * (bsz / 4))) / (bsz / 4)) % (bsz / 4)) = some r)
    (hr : r ≠ 0) (hoffr : r * bsz < 4294967296)
    (he3 : spec_entry f bsz r ((i - (12 + bsz / 4 + bsz / 4 * (bsz / 4))) % (bsz / 4))
      = some v) :
    ∃ w1, get_blk f i ino bsz w = .ok v w1 ∧
      w1.reads = w.reads ++ [le32 (ino.i_block EXT2_TIND_BLOCK) * bsz, q * bsz, r * bsz] := by
  have hE : 0 < bsz / 4 := by rcases hb with rfl | rfl | rfl <;> decide
  have hE2 : 0 < bsz / 4 * (bsz / 4) := Nat.mul_pos hE hE
  have hi32 : i < 4294967296 := by rcases hb with rfl | rfl | rfl <;> omega
  have hi1 : (i - (12 + bsz / 4 + bsz / 4 * (bsz / 4))) / (bsz / 4 * (bsz / 4)) < bsz / 4 := by
    rw [Nat.div_lt_iff_lt_mul hE2]
    have : bsz / 4 * (bsz / 4 * (bsz / 4)) = bsz / 4 * (bsz / 4) * (bsz / 4) := by ring
    omega
  rw [get_blk_triple_eq f ino bsz i w hb h1 hi32]
  obtain ⟨w1, r1, r2, -, a1⟩ := rd_indir_entry f _ _ bsz q w hb hp hall hoff hi1 he1
  obtain ⟨w2, s1, s2, -, a2⟩ := rd_indir_entry f q _ bsz r w1 hb hq a1 hoffq
    (Nat.mod_lt _ hE) he2
  obtain ⟨w3, t1, t2, -, -⟩ := rd_indir_entry f r _ bsz v w2 hb hr a2 hoffr
    (Nat.mod_lt _ hE) he3
  refine ⟨w3, ?_, ?_⟩
  · rw [r1, andThen_ok, s1, andThen_ok, t1]
  · rw [t2, s2, r2]; simp

/-! ### The theorems without overflow at concrete inputs -/

/-- The single-indirect tier at a concrete input: `i_block[12] = 1`, logical index 12. -/
theorem get_blk_single_entry_witness :
    ∃ w1, get_blk image_4g 12 (inode_with 0 0 12 1) 1024 world0 = .ok 7 w1 ∧
      w1.reads = world0.reads ++ [le32 ((inode_with 0 0 12 1).i_block EXT2_IND_BLOCK) * 1024] :=
  get_blk_single_entry image_4g (inode_with 0 0 12 1) 1024 12 7 world0 (by decide) (by decide)
    (by decide) (by decide) (by decide) (by decide) (by decide)

/-- The double-indirect tier at a concrete input: `i_block[13] = 2`, logical index 268. -/
theorem get_blk_double_entry_witness :
    ∃ w1, get_blk image_4g 268 (inode_with 0 0 13 2) 1024 world0 = .ok 11 w1 ∧
      w1.reads = world0.reads
        ++ [le32 ((inode_with 0 0 13 2).i_block EXT2_DIND_BLOCK) * 1024, 9 * 1024] :=
  get_blk_double_entry image_4g (inode_with 0 0 13 2) 1024 268 9 11 world0 (by decide)
    (by decide) (by decide) (by decide) (by decide) (by decide) (by decide) (by decide)
    (by decide) (by decide)

/-- The triple-indirect tier at a concrete input: `i_block[14] = 1`, logical index 65804. -/
theorem get_blk_triple_entry_witness :
    ∃ w1, get_blk image_4g 65804 (inode_with 0 0 14 1) 1024 world0 = .ok 0 w1 ∧
      w1.reads = world0.reads
        ++ [le32 ((inode_with 0 0 14 1).i_block EXT2_TIND_BLOCK) * 1024, 7 * 1024, 13 * 1024] :=
  get_blk_triple_entry image_4g (inode_with 0 0 14 1) 1024 65804 7 13 0 world0 (by decide)
    (by decide) (by decide) (by decide) (by decide) (by decide) (by decide) (by decide)
    (by decide) (by decide) (by decide) (by decide) (by decide)

/-- Extraction at a concrete input: 1025 bytes, block 0 is physical block 1 and block 1 a
hole. -/
theorem main_extract_content_witness :
    (World.mk [1024] (2 :: List.replicate 1024 0) [] none).out
      = world0.out ++ spec_output image_3k (inode_with 1025 0 0 1) 1024
          (max_blk (file_size (inode_with 1025 0 0 1)) 1024) :=
  main_extract_content image_3k (inode_with 1025 0 0 1) 1024 world0
    ⟨[1024], 2 :: List.replicate 1024 0, [], none⟩ (by decide) (by decide) (by decide)
    (by
      intro b pb hlt hr
      have hm : max_blk (file_size (inode_with 1025 0 0 1)) 1024 = 2 := by decide
      rw [hm] at hlt
      have h0 : resolve image_3k (inode_with 1025 0 0 1) 1024 0 = some 1 := by decide
      have h1 : resolve image_3k (inode_with 1025 0 0 1) 1024 1 = some 0 := by decide
      interval_cases b
      · rw [h0] at hr; cases hr; decide
      · rw [h1] at hr; cases hr; decide)
    (by decide)

/-- The number of bytes written at a concrete input: 1025 bytes, block 0 is physical block 1
and block 1 a hole. -/
theorem main_extract_length_witness :
    (World.mk [1024] (2 :: List.replicate 1024 0) [] none).out.length
      = world0.out.length + file_size (inode_with 1025 0 0 1) :=
  main_extract_length image_3k (inode_with 1025 0 0 1) 1024 world0
    ⟨[1024], 2 :: List.replicate 1024 0, [], none⟩ (by decide) (by decide) (by decide)
    (by decide)

/-! ## The claims -/

/-- Claim C1, at an input where the code departs from it. The image holds block 4194304 at
byte offset `2^32`; the inode has size 1 and `i_block[0] = 4194304`. Extraction ends with
`RET_OK` after one read at offset 0 (the 32-bit product `4194304 * 1024`) and writes the
first byte of block 0, which is 1, whereas the first `file_size` bytes of the block at
offset `get_blk(0) * block_size` are the single byte 2. -/
theorem main_extract_offset_wraps :
    main_extract image_4g (inode_with 1 0 0 4194304) 1024 world0
      = some (.RET_OK, ⟨[0], [1], [], none⟩) ∧
    resolve image_4g (inode_with 1 0 0 4194304) 1024 0 = some 4194304 ∧
    max_blk (file_size (inode_with 1 0 0 4194304)) 1024 = 1 ∧
    spec_output image_4g (inode_with 1 0 0 4194304) 1024 1 = [2] := by
  decide

/-- Claim C2, at an input where the code departs from it. For the inode whose two size
halves are `0xFFFFFFFF` the file size is `2^64 - 1`, the 64-bit sum `f_sz + bsz - 1` wraps,
the loop bound is 0 instead of `2^54`, and extraction ends with `RET_OK` having written
nothing. -/
theorem main_extract_size_wraps :
    file_size (inode_with 4294967295 4294967295 0 0) = 18446744073709551615 ∧
    max_blk 18446744073709551615 1024 = 0 ∧
    (18446744073709551615 + 1024 - 1) / 1024 = 18014398509481984 ∧
    main_extract image_3k (inode_with 4294967295 4294967295 0 0) 1024 world0
      = some (.RET_OK, world0) := by
  decide

/-- Claim C3. For every inode, every block size and every logical index `i < 12`, `get_blk`
returns `RET_OK` with the little-endian value of `i_block[i]` stored, in the world it
started from: no read of the image is made and `rd_indir` is not called. -/
theorem get_blk_direct (f : FILE) (ino : ext2_inode) (bsz i : Nat) (w : World) (h : i < 12) :
    get_blk f i ino bsz w = .ok (le32 (ino.i_block ⟨i, Nat.lt_trans h (by decide)⟩)) w := by
  have h2 : i < EXT2_NDIR_BLOCKS := h
  simp [get_blk, h2]

/-- Claim C3 at a concrete input: logical block 3 of an inode with `i_block[3] = 2`. -/
theorem get_blk_direct_witness :
    get_blk image_3k 3 (inode_with 4096 0 3 2) 1024 world0 = .ok 2 world0 :=
  get_blk_direct image_3k (inode_with 4096 0 3 2) 1024 3 world0 (by decide)

/-- Claim C4, at an input where the code departs from it. With `i_block[12] = 4194304` and
block size 1024 the pointer block lies at byte offset `2^32`, inside the image, and its
entry 0 is 2; `get_blk` for logical index 12 reads at offset 0 instead and returns entry
0 of block 0, which is 1. -/
theorem get_blk_single_offset_wraps :
    get_blk image_4g 12 (inode_with 0 0 12 4194304) 1024 world0
      = .ok 1 ⟨[0], [], [], none⟩ ∧
    spec_entry image_4g 1024 4194304 (12 - 12) = some 2 := by
  decide

/-- Claim C5, at an input where the code departs from it. With `i_block[13] = 4194304` and
block size 1024, logical index 268 has `idx1 = idx2 = 0`; entry 0 of pointer block
4194304 is 2 and entry 0 of pointer block 2 is 9, but `get_blk` reads at offsets 0 and
1024 and returns 7, entry 0 of block 1. -/
theorem get_blk_double_offset_wraps :
    get_blk image_4g 268 (inode_with 0 0 13 4194304) 1024 world0
      = .ok 7 ⟨[0, 1024], [], [], none⟩ ∧
    spec_entry image_4g 1024 4194304 ((268 - (12 + 256)) / 256) = some 2 ∧
    spec_entry image_4g 1024 2 ((268 - (12 + 256)) % 256) = some 9 := by
  decide

/-- Claim C6, at an input where the code departs from it. With `i_block[14] = 4194304` and
block size 1024, logical index 65804 has `idx1 = idx2 = idx3 = 0`; the chain of the
claim is block 4194304, block 2, block 9 with final entry 11, but `get_blk` reads at
offsets 0, 1024 and 7168 and returns 13, entry 0 of block 7. -/
theorem get_blk_triple_offset_wraps :
    get_blk image_4g 65804 (inode_with 0 0 14 4194304) 1024 world0
      = .ok 13 ⟨[0, 1024, 7168], [], [], none⟩ ∧
    spec_entry image_4g 1024 4194304 ((65804 - (12 + 256 + 256 * 256)) / (256 * 256)) = some 2 ∧
    spec_entry image_4g 1024 2 (((65804 - (12 + 256 + 256 * 256)) / 256) % 256) = some 9 ∧
    spec_entry image_4g 1024 9 ((65804 - (12 + 256 + 256 * 256)) % 256) = some 11 := by
  decide

/-- Claim C7. In every indirect tier a zero pointer ends the resolution with `RET_OK` and
block 0, in the world in which the zero was seen, so that no read follows it:
* single-indirect tier: `i_block[12] = 0` gives block 0 with no read at all;
* double-indirect tier: `i_block[13] = 0` gives block 0 with no read at all, and a zero
  entry read from the first pointer block gives block 0 with no second read;
* triple-indirect tier: `i_block[14] = 0` gives block 0 with no read at all, and a zero
  entry read from the first or from the second pointer block gives block 0 with no
  further read. -/
theorem get_blk_zero_pointer (f : FILE) (ino : ext2_inode) (bsz i : Nat) (w : World)
    (hb : bsz = 1024 ∨ bsz = 2048 ∨ bsz = 4096) (hi : 12 ≤ i) (hi32 : i < 4294967296) :
    (i < 12 + bsz / 4 → le32 (ino.i_block EXT2_IND_BLOCK) = 0 →
        get_blk f i ino bsz w = .ok 0 w) ∧
    (12 + bsz / 4 ≤ i → i < 12 + bsz / 4 + bsz / 4 * (bsz / 4) →
        (le32 (ino.i_block EXT2_DIND_BLOCK) = 0 → get_blk f i ino bsz w = .ok 0 w) ∧
        (∀ w1, rd_indir f (le32 (ino.i_block EXT2_DIND_BLOCK))
              ((i - (12 + bsz / 4)) / (bsz / 4)) bsz w = .ok 0 w1 →
            get_blk f i ino bsz w = .ok 0 w1)) ∧
    (12 + bsz / 4 + bsz / 4 * (bsz / 4) ≤ i →
        (le32 (ino.i_block EXT2_TIND_BLOCK) = 0 → get_blk f i ino bsz w = .ok 0 w) ∧
        (∀ w1, rd_indir f (le32 (ino.i_block EXT2_TIND_BLOCK))
              ((i - (12 + bsz / 4 + bsz / 4 * (bsz / 4))) / (bsz / 4 * (bsz / 4))) bsz w
              = .ok 0 w1 →
            get_blk f i ino bsz w = .ok 0 w1) ∧
        (∀ p w1 w2, rd_indir f (le32 (ino.i_block EXT2_TIND_BLOCK))
              ((i - (12 + bsz / 4 + bsz / 4 * (bsz / 4))) / (bsz / 4 * (bsz / 4))) bsz w
              = .ok p w1 →
            rd_indir f p
              (((i - (12 + bsz / 4 + bsz / 4 * (bsz / 4))) / (bsz / 4)) % (bsz / 4)) bsz w1
              = .ok 0 w2 →
            get_blk f i ino bsz w = .ok 0 w2)) := by
  refine ⟨?_, ?_, ?_⟩
  · intro h2 hz
    rw [get_blk_single_eq f ino bsz i w hb hi h2, hz, rd_indir_zero]
  · intro h1 h2
    refine ⟨?_, ?_⟩
    · intro hz
      rw [get_blk_double_eq f ino bsz i w hb h1 h2, hz, rd_indir_zero, andThen_ok,
        rd_indir_zero]
    · intro w1 hr
      rw [get_blk_double_eq f ino bsz i w hb h1 h2, hr, andThen_ok, rd_indir_zero]
  · intro h1
    refine ⟨?_, ?_, ?_⟩
    · intro hz
      rw [get_blk_triple_eq f ino bsz i w hb h1 hi32, hz, rd_indir_zero, andThen_ok,
        rd_indir_zero, andThen_ok, rd_indir_zero]
    · intro w1 hr
      rw [get_blk_triple_eq f ino bsz i w hb h1 hi32, hr, andThen_ok, rd_indir_zero,
        andThen_ok, rd_indir_zero]
    · intro p w1 w2 hr1 hr2
      rw [get_blk_triple_eq f ino bsz i w hb h1 hi32, hr1, andThen_ok, hr2, andThen_ok,
        rd_indir_zero]

/-- Claim C7 at concrete inputs, block size 1024, on an image whose only non-zero entry is
entry 0 of block 1, equal to 2: a zero single-indirect pointer (index 12, no read), a
zero entry in the first pointer block of the double-indirect tier (index 268, one read),
a zero entry in the first pointer block of the triple-indirect tier (index 131340, one
read) and in the second (index 65804, two reads). -/
theorem get_blk_zero_pointer_witness :
    get_blk image_3k 12 inode_chain 1024 world0 = .ok 0 world0 ∧
    get_blk image_3k 268 inode_chain 1024 world0 = .ok 0 ⟨[2048], [], [], none⟩ ∧
    get_blk image_3k 131340 inode_chain 1024 world0 = .ok 0 ⟨[1024], [], [], none⟩ ∧
    get_blk image_3k 65804 inode_chain 1024 world0 = .ok 0 ⟨[1024, 2048], [], [], none⟩ :=
  ⟨(get_blk_zero_pointer image_3k inode_chain 1024 12 world0 (by decide) (by decide)
      (by decide)).1 (by decide) (by decide),
   ((get_blk_zero_pointer image_3k inode_chain 1024 268 world0 (by decide) (by decide)
      (by decide)).2.1 (by decide) (by decide)).2 _ (by decide),
   ((get_blk_zero_pointer image_3k inode_chain 1024 131340 world0 (by decide) (by decide)
      (by decide)).2.2 (by decide)).2.1 _ (by decide),
   ((get_blk_zero_pointer image_3k inode_chain 1024 65804 world0 (by decide) (by decide)
      (by decide)).2.2 (by decide)).2.2 2 ⟨[1024], [], [], none⟩ _ (by decide) (by decide)⟩

/-- Claim C8, at inputs where the code departs from it. At the first logical index beyond
the triple-indirect range, for each of the three block sizes and an inode whose
triple-indirect pointer is 0, `get_blk` returns `RET_OK` with block 0 stored and not an
error: it has no test for the upper end of the range. With a non-zero triple-indirect
pointer the same index makes it evaluate `buf[256]` on a buffer of 256 entries. -/
theorem get_blk_beyond_triple_ok :
    12 + 256 + 256 * 256 + 256 * 256 * 256 = 16843020 ∧
    get_blk image_3k 16843020 (inode_with 0 0 14 0) 1024 world0 = .ok 0 world0 ∧
    12 + 512 + 512 * 512 + 512 * 512 * 512 = 134480396 ∧
    get_blk image_3k 134480396 (inode_with 0 0 14 0) 2048 world0 = .ok 0 world0 ∧
    12 + 1024 + 1024 * 1024 + 1024 * 1024 * 1024 = 1074791436 ∧
    get_blk image_3k 1074791436 (inode_with 0 0 14 0) 4096 world0 = .ok 0 world0 ∧
    get_blk image_3k 16843020 (inode_with 0 0 14 1) 1024 world0 = .undefined := by
  decide

/-- The byte counts of the loop body relative to the loop bound the code computes. For
every file size and every block `b` below the 64-bit loop bound `max_blk` of line 175, an
iteration of the reconstruction loop that emits its block and goes on has appended
exactly `block_size` bytes when `b < max_blk - 1`, and for `b = max_blk - 1` exactly
`file_size mod block_size` bytes, or `block_size` when that remainder is 0. The bound
`max_blk` is the block count `ceil(file_size / block_size)` only while
`file_size + block_size ≤ 2^64` (`max_blk_total`). -/
theorem blk_len_emitted (f : FILE) (ino : ext2_inode) (bsz f_sz b : Nat) (w w1 : World)
    (hb : bsz = 1024 ∨ bsz = 2048 ∨ bsz = 4096) (hlt : b < max_blk f_sz bsz)
    (hstep : main_body f ino bsz f_sz (max_blk f_sz bsz) b w = .next w1) :
    ∃ bytes, w1.out = w.out ++ bytes ∧
      (b < max_blk f_sz bsz - 1 → bytes.length = bsz) ∧
      (b = max_blk f_sz bsz - 1 →
        bytes.length = if f_sz % bsz = 0 then bsz else f_sz % bsz) ∧
      (f_sz % bsz = 0 → bytes.length = bsz) := by
  obtain ⟨pb, -, hout, -⟩ :=
    main_body_next_content f ino bsz f_sz (max_blk f_sz bsz) b w w1 hb hstep
  have hbpos : 0 < bsz := by rcases hb with rfl | rfl | rfl <;> decide
  have hlen : ((code_content f bsz pb).take (blk_len bsz f_sz (max_blk f_sz bsz) b)).length
      = blk_len bsz f_sz (max_blk f_sz bsz) b := by
    rw [List.length_take, code_content_length]
    exact Nat.min_eq_left (blk_len_le _ _ _ _ hbpos)
  have hin : b < max_blk f_sz bsz - 1 → blk_len bsz f_sz (max_blk f_sz bsz) b = bsz :=
    fun hlt2 => blk_len_inner bsz f_sz _ b (max_blk_lt _ _) (by omega)
  have hla : b = max_blk f_sz bsz - 1 → blk_len bsz f_sz (max_blk f_sz bsz) b
      = if f_sz % bsz = 0 then bsz else f_sz % bsz := by
    intro hbe
    rw [hbe]
    exact blk_len_last bsz f_sz _ (max_blk_lt _ _) (by omega)
  refine ⟨_, hout, ?_, ?_, ?_⟩
  · intro h1; rw [hlen]; exact hin h1
  · intro h1; rw [hlen]; exact hla h1
  · intro h0
    rw [hlen]
    by_cases hc : b < max_blk f_sz bsz - 1
    · exact hin hc
    · rw [hla (by omega), if_pos h0]

/-- The byte counts of the loop body at a concrete input: a file of 2049 bytes with block
size 1024 whose block 1 is physical block 1. Block 1 is not the last of the three and
emits 1024 bytes. -/
theorem blk_len_emitted_witness :
    ∃ bytes, (World.mk [1024] (2 :: List.replicate 1023 0) [] none).out
        = world0.out ++ bytes ∧
      (1 < max_blk 2049 1024 - 1 → bytes.length = 1024) ∧
      (1 = max_blk 2049 1024 - 1 →
        bytes.length = if 2049 % 1024 = 0 then 1024 else 2049 % 1024) ∧
      (2049 % 1024 = 0 → bytes.length = 1024) :=
  blk_len_emitted image_3k (inode_with 2049 0 1 1) 1024 2049 1 world0
    ⟨[1024], 2 :: List.replicate 1023 0, [], none⟩ (by decide) (by decide) (by decide)

/-- The byte counts of the loop body relative to the block count of the specification,
`(file_size + block_size - 1) / block_size` in the integers, for the file sizes at which
the 64-bit sum of line 175 does not wrap: with `file_size + block_size ≤ 2^64`, an
iteration for a block `b` below the block count that emits its block and goes on has
appended `block_size` bytes when `b` is not the last block, and `file_size mod block_size`
bytes, or `block_size` when that remainder is 0, when it is; when the file size is a
multiple of the block size every block emits `block_size` bytes. -/
theorem blk_len_emitted_ceil (f : FILE) (ino : ext2_inode) (bsz f_sz b : Nat) (w w1 : World)
    (hb : bsz = 1024 ∨ bsz = 2048 ∨ bsz = 4096) (hsz : f_sz + bsz ≤ 18446744073709551616)
    (hlt : b < (f_sz + bsz - 1) / bsz)
    (hstep : main_body f ino bsz f_sz (max_blk f_sz bsz) b w = .next w1) :
    ∃ bytes, w1.out = w.out ++ bytes ∧
      (b < (f_sz + bsz - 1) / bsz - 1 → bytes.length = bsz) ∧
      (b = (f_sz + bsz - 1) / bsz - 1 →
        bytes.length = if f_sz % bsz = 0 then bsz else f_sz % bsz) ∧
      (f_sz % bsz = 0 → bytes.length = bsz) := by
  have hmb : max_blk f_sz bsz = (f_sz + bsz - 1) / bsz := (max_blk_total f_sz bsz hb hsz).1
  rw [← hmb] at hlt ⊢
  exact blk_len_emitted f ino bsz f_sz b w w1 hb hlt hstep

/-- The byte counts relative to the block count of the specification at a concrete input:
a file of 2049 bytes with block size 1024 whose last block, block 2, is physical block 1,
emits `2049 mod 1024 = 1` byte for it. -/
theorem blk_len_emitted_ceil_witness :
    ∃ bytes, (World.mk [1024] [2] [] none).out = world0.out ++ bytes ∧
      (2 < (2049 + 1024 - 1) / 1024 - 1 → bytes.length = 1024) ∧
      (2 = (2049 + 1024 - 1) / 1024 - 1 →
        bytes.length = if 2049 % 1024 = 0 then 1024 else 2049 % 1024) ∧
      (2049 % 1024 = 0 → bytes.length = 1024) :=
  blk_len_emitted_ceil image_3k (inode_with 2049 0 2 1) 1024 2049 2 world0
    ⟨[1024], [2], [], none⟩ (by decide) (by decide) (by decide) (by decide)

/-- Claim C9, at an input where the code departs from it. The inode has the size halves
`0xFFFFFFFF` (high) and `0xFFFFFC01` (low), so the file size is `2^64 - 1023`, and
`i_block[0] = 1`; the block size is 1024. The block count is
`ceil(file_size / 1024) = 2^54`, so block 0 is a block below the last one and the number
of bytes emitted for it should be 1024 (and 1, the remainder, for the last block). The
64-bit sum `f_sz + bsz - 1` of line 175 wraps to 0, the loop bound is 0, and extraction
ends with `RET_OK` having emitted no byte for block 0 or for any other block. -/
theorem blk_len_size_wraps :
    file_size (inode_with 4294966273 4294967295 0 1) = 18446744073709550593 ∧
    0 < 18446744073709550593 ∧
    (18446744073709550593 + 1024 - 1) / 1024 = 18014398509481984 ∧
    0 < 18014398509481984 - 1 ∧
    18446744073709550593 % 1024 = 1 ∧
    resolve image_3k (inode_with 4294966273 4294967295 0 1) 1024 0 = some 1 ∧
    max_blk 18446744073709550593 1024 = 0 ∧
    main_extract image_3k (inode_with 4294966273 4294967295 0 1) 1024 world0
      = some (.RET_OK, world0) ∧
    world0.out = [] := by
  decide

/-- Claim C10, at an input where the code departs from it. The inode has size 1025,
`i_block[0] = 4194304` and `i_block[1] = 0`. The hole is emitted as one zero byte with
no read for it, but the 1024 bytes emitted for block 0 are those of the image at offset
0 (first byte 1), read at the 32-bit product `4194304 * 1024`, and not the first 1024
bytes of physical block 4194304 (first byte 2). -/
theorem main_extract_sparse_offset_wraps :
    main_extract image_4g (inode_with 1025 0 0 4194304) 1024 world0
      = some (.RET_OK, ⟨[0], 1 :: List.replicate 1024 0, [], none⟩) ∧
    resolve image_4g (inode_with 1025 0 0 4194304) 1024 0 = some 4194304 ∧
    resolve image_4g (inode_with 1025 0 0 4194304) 1024 1 = some 0 ∧
    spec_block image_4g 1024 4194304 = 2 :: List.replicate 1023 0 := by
  decide

/-! ## Further lemmas

### The path of a logical block -/

/-- The path of a logical block in the direct tier. -/
theorem get_blk_path_direct (bsz i : Nat) (h : i < 12) :
    get_blk_path i bsz = (⟨i, Nat.lt_trans h (by decide)⟩, []) := by
  have h2 : i < EXT2_NDIR_BLOCKS := h
  simp [get_blk_path, h2]

/-- The path of a logical block in the single-indirect tier. -/
theorem get_blk_path_single (bsz i : Nat) (hb : bsz = 1024 ∨ bsz = 2048 ∨ bsz = 4096)
    (h1 : 12 ≤ i) (h2 : i < 12 + bsz / 4) :
    get_blk_path i bsz = (EXT2_IND_BLOCK, [i - 12]) := by
  obtain ⟨e1, -, -, -⟩ := tier_bounds bsz hb
  have h0 : ¬ i < EXT2_NDIR_BLOCKS := by simp [EXT2_NDIR_BLOCKS]; omega
  have hs : sub32 i EXT2_NDIR_BLOCKS = i - 12 := by
    simp only [sub32, EXT2_NDIR_BLOCKS]
    rcases hb with rfl | rfl | rfl <;> omega
  simp only [get_blk_path, h0, dite_false, e1, h2, if_true, hs]

/-- The path of a logical block in the double-indirect tier. -/
theorem get_blk_path_double (bsz i : Nat) (hb : bsz = 1024 ∨ bsz = 2048 ∨ bsz = 4096)
    (h1 : 12 + bsz / 4 ≤ i) (h2 : i < 12 + bsz / 4 + bsz / 4 * (bsz / 4)) :
    get_blk_path i bsz
      = (EXT2_DIND_BLOCK, [(i - (12 + bsz / 4)) / (bsz / 4), (i - (12 + bsz / 4)) % (bsz / 4)]) := by
  obtain ⟨e1, e2, -, e3⟩ := tier_bounds bsz hb
  have h0 : ¬ i < EXT2_NDIR_BLOCKS := by simp [EXT2_NDIR_BLOCKS]; omega
  have h0b : ¬ i < 12 + bsz / 4 := by omega
  have hs : sub32 i (12 + bsz / 4) = i - (12 + bsz / 4) := by
    simp only [sub32]
    rcases hb with rfl | rfl | rfl <;> omega
  simp only [get_blk_path, h0, dite_false, e1, e2, e3, h0b, if_false, h2, if_true, hs]

/-- The path of a logical block from the triple-indirect tier on. -/
theorem get_blk_path_triple (bsz i : Nat) (hb : bsz = 1024 ∨ bsz = 2048 ∨ bsz = 4096)
    (h1 : 12 + bsz / 4 + bsz / 4 * (bsz / 4) ≤ i) (h2 : i < 4294967296) :
    get_blk_path i bsz
      = (EXT2_TIND_BLOCK,
          [(i - (12 + bsz / 4 + bsz / 4 * (bsz / 4))) / (bsz / 4 * (bsz / 4)),
           ((i - (12 + bsz / 4 + bsz / 4 * (bsz / 4))) / (bsz / 4)) % (bsz / 4),
           (i - (12 + bsz / 4 + bsz / 4 * (bsz / 4))) % (bsz / 4)]) := by
  obtain ⟨e1, e2, -, e3⟩ := tier_bounds bsz hb
  have h0 : ¬ i < EXT2_NDIR_BLOCKS := by
    simp [EXT2_NDIR_BLOCKS]; rcases hb with rfl | rfl | rfl <;> omega
  have h0b : ¬ i < 12 + bsz / 4 := by rcases hb with rfl | rfl | rfl <;> omega
  have h0c : ¬ i < 12 + bsz / 4 + bsz / 4 * (bsz / 4) := by omega
  have hs : sub32 i (12 + bsz / 4 + bsz / 4 * (bsz / 4))
      = i - (12 + bsz / 4 + bsz / 4 * (bsz / 4)) := by
    simp only [sub32]
    rcases hb with rfl | rfl | rfl <;> omega
  simp only [get_blk_path, h0, dite_false, e1, e2, e3, h0b, h0c, if_false, hs]

/-- What `get_blk` does is the chain of calls of `rd_indir` along the path of the block. -/
theorem get_blk_eq_chain (f : FILE) (ino : ext2_inode) (bsz i : Nat) (w : World)
    (hb : bsz = 1024 ∨ bsz = 2048 ∨ bsz = 4096) (hi : i < 4294967296) :
    get_blk f i ino bsz w
      = rd_chain f bsz (le32 (ino.i_block (get_blk_path i bsz).1)) (get_blk_path i bsz).2 w := by
  by_cases c0 : i < 12
  · rw [get_blk_direct_eq f ino bsz i w c0, get_blk_path_direct bsz i c0]
    rfl
  by_cases c1 : i < 12 + bsz / 4
  · rw [get_blk_single_eq f ino bsz i w hb (by omega) c1,
      get_blk_path_single bsz i hb (by omega) c1]
    simp only [rd_chain, andThen_ret]
  by_cases c2 : i < 12 + bsz / 4 + bsz / 4 * (bsz / 4)
  · rw [get_blk_double_eq f ino bsz i w hb (by omega) c2,
      get_blk_path_double bsz i hb (by omega) c2]
    simp only [rd_chain, andThen_ret]
  · rw [get_blk_triple_eq f ino bsz i w hb (by omega) hi,
      get_blk_path_triple bsz i hb (by omega) hi]
    simp only [rd_chain, andThen_ret]

/-- An index below the number of entries lies inside a buffer of one block. -/
theorem buf_le32_defined (buf : List Byte) (bsz idx : Nat)
    (hb : bsz = 1024 ∨ bsz = 2048 ∨ bsz = 4096) (hlen : buf.length = bsz)
    (hidx : idx < bsz / 4) : (buf_le32 buf idx).isSome := by
  have h3 : 4 * idx + 3 < buf.length := by rcases hb with rfl | rfl | rfl <;> omega
  have h0 : 4 * idx < buf.length := by omega
  have h1 : 4 * idx + 1 < buf.length := by omega
  have h2 : 4 * idx + 2 < buf.length := by omega
  simp only [buf_le32, List.getElem?_eq_getElem h0, List.getElem?_eq_getElem h1,
    List.getElem?_eq_getElem h2, List.getElem?_eq_getElem h3, Option.isSome_some]

/-- With an index below the number of entries, `rd_indir` has defined behaviour. -/
theorem rd_indir_defined (f : FILE) (indir idx bsz : Nat) (w : World)
    (hb : bsz = 1024 ∨ bsz = 2048 ∨ bsz = 4096) (hidx : idx < bsz / 4) :
    rd_indir f indir idx bsz w ≠ .undefined := by
  unfold rd_indir
  split
  · simp
  · split
    · simp
    · simp only [fseek_fread]
      split
      · rename_i heq
        split at heq
        · simp at heq
        · simp
      · rename_i buf w2 heq
        split at heq
        · simp only [Prod.mk.injEq, Option.some.injEq] at heq
          have hlen : buf.length = bsz := by rw [← heq.1]; simp
          have := buf_le32_defined buf bsz idx hb hlen hidx
          split
          · rename_i hnone
            rw [hnone] at this
            simp at this
          · simp
        · simp at heq

/-- A sequence has defined behaviour when both of its parts have. -/
theorem andThen_defined (r : Res) (k : Nat → World → Res) (hr : r ≠ .undefined)
    (hk : ∀ v w, k v w ≠ .undefined) : r.andThen k ≠ .undefined := by
  cases r with
  | ok v w => exact hk v w
  | fail rc w => simp [Res.andThen]
  | undefined => exact absurd rfl hr

/-- A chain of calls with indices below the number of entries has defined behaviour. -/
theorem rd_chain_defined (f : FILE) (bsz : Nat) (hb : bsz = 1024 ∨ bsz = 2048 ∨ bsz = 4096)
    (path : List Nat) (hp : ∀ idx ∈ path, idx < bsz / 4) :
    ∀ (p : Nat) (w : World), rd_chain f bsz p path w ≠ .undefined := by
  induction path with
  | nil => intro p w; simp [rd_chain]
  | cons idx rest ih =>
    intro p w
    unfold rd_chain
    apply andThen_defined
    · exact rd_indir_defined f p idx bsz w hb (hp idx (by simp))
    · intro v w1
      exact ih (fun x hx => hp x (by simp [hx])) v w1

/-- The slot of `i_block` from which the path of a block in range starts. -/
theorem get_blk_path_slot (bsz k : Nat) (hb : bsz = 1024 ∨ bsz = 2048 ∨ bsz = 4096)
    (hk32 : k < 4294967296) :
    (get_blk_path k bsz).1.val
      = (if k < 12 then k else if k < 12 + bsz / 4 then 12
          else if k < 12 + bsz / 4 + bsz / 4 * (bsz / 4) then 13 else 14) := by
  by_cases c0 : k < 12
  · rw [get_blk_path_direct bsz k c0]; simp only [c0, if_true]
  by_cases c1 : k < 12 + bsz / 4
  · rw [get_blk_path_single bsz k hb (by omega) c1]; simp only [c0, c1, if_true, if_false]; rfl
  by_cases c2 : k < 12 + bsz / 4 + bsz / 4 * (bsz / 4)
  · rw [get_blk_path_double bsz k hb (by omega) c2]
    simp only [c0, c1, c2, if_true, if_false]; rfl
  · rw [get_blk_path_triple bsz k hb (by omega) hk32]
    simp only [c0, c1, c2, if_false]; rfl

/-! ### Progress of the reconstruction loop -/

/-- With no limit on the output, `write_zeros` succeeds. -/
theorem write_zeros_progress (n : Nat) (w : World) (hroom : w.room = none) :
    ∃ w1, write_zeros n w = (true, w1) ∧ w1.room = none := by
  induction n generalizing w with
  | zero => exact ⟨w, rfl, hroom⟩
  | succ n ih =>
    have hf : fwrite [0] 1 w = (1, { w with out := w.out ++ [0] }) := by
      simp [fwrite, hroom]
    obtain ⟨w1, h1, h2⟩ := ih { w with out := w.out ++ [0] } hroom
    refine ⟨w1, ?_, h2⟩
    rw [write_zeros, hf]
    exact h1

/-- An iteration of the reconstruction loop goes on to the next block when the output has
no limit, every allocation succeeds, the block resolves, and the block resolved to, if
not a hole, can be read at the offset the code computes. -/
theorem main_body_progress (f : FILE) (ino : ext2_inode) (bsz f_sz mb b pb : Nat) (w : World)
    (hb : bsz = 1024 ∨ bsz = 2048 ∨ bsz = 4096) (hroom : w.room = none)
    (hall : ∀ x ∈ w.mallocs, x = true) (hres : resolve f ino bsz b = some pb)
    (hrd : pb ≠ 0 → mul32 pb bsz + bsz ≤ f.size) :
    ∃ w1, main_body f ino bsz f_sz mb b w = .next w1 ∧ w1.room = none ∧
      ∀ x ∈ w1.mallocs, x = true := by
  have hg0 : ∃ u, get_blk f (b % 4294967296) ino bsz ⟨[], [], [], none⟩ = .ok pb u := by
    unfold resolve at hres
    cases hg : get_blk f (b % 4294967296) ino bsz ⟨[], [], [], none⟩ with
    | ok v u =>
      rw [hg] at hres
      simp only [Option.some.injEq] at hres
      subst hres
      exact ⟨u, rfl⟩
    | fail rc u => rw [hg] at hres; simp at hres
    | undefined => rw [hg] at hres; simp at hres
  obtain ⟨u, hu⟩ := hg0
  obtain ⟨wg, hg⟩ := get_blk_indep f ino bsz _ pb _ u w hb (Nat.mod_lt _ (by decide)) hu hall
  obtain ⟨g1, g2, g3⟩ := get_blk_frame f ino bsz _ pb w wg hb (Nat.mod_lt _ (by decide)) hg
  have hroomg : wg.room = none := by rw [g2, hroom]
  have hpos : 0 < bsz := by rcases hb with rfl | rfl | rfl <;> decide
  unfold main_body
  rw [hg]
  by_cases hp : pb = 0
  · obtain ⟨w1, hz, hr1⟩ := write_zeros_progress (blk_len bsz f_sz mb b) wg hroomg
    obtain ⟨-, -, z3⟩ := write_zeros_ok _ _ _ hz
    refine ⟨w1, ?_, hr1, ?_⟩
    · simp only [hp, if_true, hz]
    · rw [z3]; exact g3 hall
  · rcases hm : malloc wg with ⟨ok, wm⟩
    obtain ⟨m1, m2, m3, m4⟩ := malloc_frame wg wm ok hm
    obtain ⟨hok, hallm⟩ := m4 (g3 hall)
    subst hok
    have hsz := hrd hp
    have hroomm : wm.room = none := by rw [m3, hroomg]
    have hle := blk_len_le bsz f_sz mb b hpos
    refine ⟨{ reads := wm.reads ++ [mul32 pb bsz],
              out := wm.out ++ ((List.range bsz).map fun k => f.byte (mul32 pb bsz + k)).take
                (blk_len bsz f_sz mb b),
              mallocs := wm.mallocs, room := none }, ?_, rfl, hallm⟩
    simp only [hp, if_false, hm, fseek_fread, hpos, hsz, and_self, if_true, fwrite, hroomm,
      List.length_take,
      List.length_map, List.length_range, Nat.min_eq_left hle, ne_eq, not_true_eq_false]

/-- The reconstruction loop runs to its end with `RET_OK` when every iteration can go on. -/
theorem main_loop_progress (f : FILE) (ino : ext2_inode) (bsz f_sz mb : Nat)
    (hb : bsz = 1024 ∨ bsz = 2048 ∨ bsz = 4096) :
    ∀ (left b : Nat) (w : World), w.room = none → (∀ x ∈ w.mallocs, x = true) →
      (∀ k, b ≤ k → k < b + left → ∃ pb, resolve f ino bsz k = some pb ∧
        (pb ≠ 0 → mul32 pb bsz + bsz ≤ f.size)) →
      ∃ w1, main_loop f ino bsz f_sz mb left b w = some (.RET_OK, w1) := by
  intro left
  induction left with
  | zero => intro b w _ _ _; exact ⟨w, rfl⟩
  | succ n ih =>
    intro b w hroom hall hres
    obtain ⟨pb, hp, hrd⟩ := hres b (Nat.le_refl _) (by omega)
    obtain ⟨u, hu, hr1, ha1⟩ := main_body_progress f ino bsz f_sz mb b pb w hb hroom hall hp hrd
    obtain ⟨w1, h1⟩ := ih (b + 1) u hr1 ha1 (fun k hk1 hk2 => hres k (by omega) (by omega))
    refine ⟨w1, ?_⟩
    rw [main_loop, hu]
    exact h1

/-- The reconstruction loop reaches iteration `n` when every iteration before can go on. -/
theorem main_reach_progress (f : FILE) (ino : ext2_inode) (bsz f_sz mb : Nat)
    (hb : bsz = 1024 ∨ bsz = 2048 ∨ bsz = 4096) (w : World) (hroom : w.room = none)
    (hall : ∀ x ∈ w.mallocs, x = true) :
    ∀ n : Nat, (∀ k, k < n → ∃ pb, resolve f ino bsz k = some pb ∧
        (pb ≠ 0 → mul32 pb bsz + bsz ≤ f.size)) →
      ∃ wn, main_reach f ino bsz f_sz mb n w = some wn ∧ wn.room = none ∧
        ∀ x ∈ wn.mallocs, x = true := by
  intro n
  induction n with
  | zero => intro _; exact ⟨w, rfl, hroom, hall⟩
  | succ n ih =>
    intro hres
    obtain ⟨wn, h1, h2, h3⟩ := ih (fun k hk => hres k (by omega))
    obtain ⟨pb, hp, hrd⟩ := hres n (by omega)
    obtain ⟨u, hu, hr1, ha1⟩ := main_body_progress f ino bsz f_sz mb n pb wn hb h2 h3 hp hrd
    refine ⟨u, ?_, hr1, ha1⟩
    rw [main_reach, h1]
    simp only [hu]

/-- In an inode whose pointers are all 0 every logical block resolves to a hole, whatever
its index. -/
theorem resolve_zero_inode (f : FILE) (ino : ext2_inode) (bsz b : Nat)
    (hb : bsz = 1024 ∨ bsz = 2048 ∨ bsz = 4096) (hz : ∀ k, le32 (ino.i_block k) = 0) :
    resolve f ino bsz b = some 0 := by
  have hi : b % 4294967296 < 4294967296 := Nat.mod_lt _ (by decide)
  have hg : ∀ w, get_blk f (b % 4294967296) ino bsz w = .ok 0 w := by
    intro w
    rw [get_blk_eq_chain f ino bsz _ w hb hi, hz]
    generalize (get_blk_path (b % 4294967296) bsz).2 = path
    induction path with
    | nil => rfl
    | cons idx rest ih =>
      rw [rd_chain, rd_indir_zero, andThen_ok]
      exact ih
  simp only [resolve, hg]

/-! ### Seek offsets -/

/-- The 32-bit product is the product of the integers exactly when that is below `2^32`. -/
theorem mul32_eq_iff (n bsz : Nat) : mul32 n bsz = n * bsz ↔ n * bsz < 4294967296 := by
  unfold mul32
  constructor
  · intro h
    have := Nat.mod_lt (n * bsz) (show 0 < 4294967296 by decide)
    omega
  · intro h
    exact Nat.mod_eq_of_lt h

/-- A successful call of `rd_indir` on a non-zero pointer has made exactly one read, at the
32-bit product `mul32 indir bsz`. -/
theorem rd_indir_seek (f : FILE) (indir idx bsz v : Nat) (w w1 : World) (h0 : indir ≠ 0)
    (h : rd_indir f indir idx bsz w = .ok v w1) :
    w1.reads = w.reads ++ [mul32 indir bsz] := by
  rcases rd_indir_ok_inv f indir idx bsz v w w1 h with ⟨hz, -, -⟩ | ⟨-, wm, hm, -, rfl, -⟩
  · exact absurd hz h0
  · obtain ⟨m1, -, -, -⟩ := malloc_frame w wm true hm
    simp only [m1]

/-! ### The boundary between the direct and the single-indirect tier -/

/-- The concatenation of `n` blocks of `bsz` bytes has `n * bsz` bytes. -/
theorem length_flatten_blocks {α : Type} (g : Nat → List α) (bsz : Nat)
    (hlen : ∀ k, (g k).length = bsz) :
    ∀ n s, (((List.range' s n).map g).flatten).length = n * bsz := by
  intro n
  induction n with
  | zero => intro s; simp
  | succ n ih =>
    intro s
    simp only [List.range'_succ, List.map_cons, List.flatten_cons, List.length_append, hlen,
      ih (s + 1)]
    rw [Nat.succ_mul]; omega

/-- Cutting the concatenation of `n + 1` blocks inside the last one keeps the first `n`
blocks whole. -/
theorem take_flatten_snoc {α : Type} (g : Nat → List α) (bsz n r : Nat)
    (hlen : ∀ k, (g k).length = bsz) :
    (((List.range' 0 (n + 1)).map g).flatten).take (n * bsz + r)
      = ((List.range' 0 n).map g).flatten ++ (g n).take r := by
  rw [List.range'_1_concat, List.map_append, List.flatten_append]
  have hl := length_flatten_blocks g bsz hlen n 0
  simp only [List.map_cons, List.map_nil, List.flatten_cons, List.flatten_nil,
    List.append_nil, Nat.zero_add]
  rw [← hl, List.take_append]

/-- In the direct tier `main` resolves a logical block to the pointer in its slot. -/
theorem resolve_direct (f : FILE) (ino : ext2_inode) (bsz k : Nat) (h : k < 12) :
    resolve f ino bsz k = some (le32 (ino.i_block ⟨k, Nat.lt_trans h (by decide)⟩)) := by
  have hk : k % 4294967296 = k := Nat.mod_eq_of_lt (by omega)
  simp only [resolve, hk, get_blk_direct_eq f ino bsz k _ h]

/-- Logical block 12 resolves to a hole when the single-indirect pointer is 0. -/
theorem resolve_twelve_hole (f : FILE) (ino : ext2_inode) (bsz : Nat)
    (hb : bsz = 1024 ∨ bsz = 2048 ∨ bsz = 4096)
    (hz : le32 (ino.i_block EXT2_IND_BLOCK) = 0) :
    resolve f ino bsz 12 = some 0 := by
  have hE : 0 < bsz / 4 := by rcases hb with rfl | rfl | rfl <;> decide
  have h12 : (12 : Nat) % 4294967296 = 12 := by decide
  simp only [resolve, h12, get_blk_single_eq f ino bsz 12 _ hb (Nat.le_refl _) (by omega), hz,
    rd_indir_zero]

/-- Logical block 12 resolves to entry 0 of the single-indirect pointer block when that
block lies at a byte offset below `2^32`. -/
theorem resolve_twelve_entry (f : FILE) (ino : ext2_inode) (bsz v : Nat)
    (hb : bsz = 1024 ∨ bsz = 2048 ∨ bsz = 4096)
    (hp : le32 (ino.i_block EXT2_IND_BLOCK) ≠ 0)
    (hoff : le32 (ino.i_block EXT2_IND_BLOCK) * bsz < 4294967296)
    (he : spec_entry f bsz (le32 (ino.i_block EXT2_IND_BLOCK)) 0 = some v) :
    resolve f ino bsz 12 = some v := by
  have hE : 0 < bsz / 4 := by rcases hb with rfl | rfl | rfl <;> decide
  have h12 : (12 : Nat) % 4294967296 = 12 := by decide
  obtain ⟨w1, h1, -⟩ := get_blk_single_entry f ino bsz 12 v ⟨[], [], [], none⟩ hb
    (Nat.le_refl _) (by omega) hp hoff (by simp) he
  simp only [resolve, h12, h1]

/-- A file of exactly 12 blocks, extracted with `RET_OK`, every allocation succeeding and
every direct block at a byte offset below `2^32`: the output has grown by the 12 full
blocks the direct pointers name. -/
theorem main_extract_twelve (f : FILE) (ino : ext2_inode) (bsz : Nat) (w w1 : World)
    (hb : bsz = 1024 ∨ bsz = 2048 ∨ bsz = 4096)
    (hall : ∀ x ∈ w.mallocs, x = true)
    (hsz : file_size ino = 12 * bsz)
    (hoff : ∀ b pb, b < 12 → resolve f ino bsz b = some pb → pb * bsz < 4294967296)
    (h : main_extract f ino bsz w = some (.RET_OK, w1)) :
    w1.out = w.out ++
      ((List.range 12).map fun k =>
        spec_content f bsz ((resolve f ino bsz k).getD 0)).flatten := by
  have hmb : max_blk (file_size ino) bsz = 12 := by
    rw [(max_blk_total (file_size ino) bsz hb (by rw [hsz]; rcases hb with rfl | rfl | rfl <;> omega)).1,
      hsz]
    rcases hb with rfl | rfl | rfl <;> omega
  have hc := main_extract_content f ino bsz w w1 hb hall
    (by rw [hsz]; rcases hb with rfl | rfl | rfl <;> omega)
    (fun b pb hlt hr => hoff b pb (by rw [hmb] at hlt; exact hlt) hr) h
  rw [hc, hmb]
  congr 1
  unfold spec_output
  apply List.take_of_length_le
  rw [List.range_eq_range', length_flatten_blocks _ bsz (fun k => spec_content_length f bsz _),
    hsz]

/-- A file of 12 blocks and one byte, extracted with `RET_OK`, every allocation succeeding
and every block at a byte offset below `2^32`: the output has grown by the 12 full blocks
the direct pointers name, followed by the first byte of the content of logical block
12. -/
theorem main_extract_twelve_plus_one (f : FILE) (ino : ext2_inode) (bsz : Nat) (w w1 : World)
    (hb : bsz = 1024 ∨ bsz = 2048 ∨ bsz = 4096)
    (hall : ∀ x ∈ w.mallocs, x = true)
    (hsz : file_size ino = 12 * bsz + 1)
    (hoff : ∀ b pb, b < 13 → resolve f ino bsz b = some pb → pb * bsz < 4294967296)
    (h : main_extract f ino bsz w = some (.RET_OK, w1)) :
    w1.out = w.out ++
      (((List.range 12).map fun k =>
          spec_content f bsz ((resolve f ino bsz k).getD 0)).flatten
        ++ (spec_content f bsz ((resolve f ino bsz 12).getD 0)).take 1) := by
  have hmb : max_blk (file_size ino) bsz = 13 := by
    rw [(max_blk_total (file_size ino) bsz hb (by rw [hsz]; rcases hb with rfl | rfl | rfl <;> omega)).1,
      hsz]
    rcases hb with rfl | rfl | rfl <;> omega
  have hc := main_extract_content f ino bsz w w1 hb hall
    (by rw [hsz]; rcases hb with rfl | rfl | rfl <;> omega)
    (fun b pb hlt hr => hoff b pb (by rw [hmb] at hlt; exact hlt) hr) h
  rw [hc, hmb]
  congr 1
  unfold spec_output
  rw [List.range_eq_range', List.range_eq_range', hsz]
  exact take_flatten_snoc (fun k => spec_content f bsz ((resolve f ino bsz k).getD 0)) bsz 12 1
    (fun k => spec_content_length f bsz _)

/-! ### The start of `main` -/

/-- A read of `n` bytes, `n` not 0, that lie inside the image succeeds and is recorded. -/
theorem fseek_fread_ok (f : FILE) (off n : Nat) (w : World) (hn : 0 < n)
    (h : off + n ≤ f.size) :
    fseek_fread f off n w
      = (some ((List.range n).map fun k => f.byte (off + k)),
          { w with reads := w.reads ++ [off] }) := by
  simp [fseek_fread, hn, h]

/-- The shift of line 127 is defined exactly for counts up to 20. -/
theorem shl_1024_eq (n : Nat) :
    shl_1024 n = if n ≤ 20 then some (1024 * 2 ^ n) else none := by
  unfold shl_1024
  by_cases h : n ≤ 20
  · have h32 : n < 32 := by omega
    have hp : 1024 * 2 ^ n < 2147483648 := by
      have : 2 ^ n ≤ 2 ^ 20 := Nat.pow_le_pow_right (by decide) h
      omega
    simp only [h32, hp, h, if_true]
  · simp only [h, if_false]
    by_cases h32 : n < 32
    · have hp : ¬ 1024 * 2 ^ n < 2147483648 := by
        have : 2 ^ 21 ≤ 2 ^ n := Nat.pow_le_pow_right (by decide) (by omega)
        omega
      simp only [h32, hp, if_true, if_false]
    · simp only [h32, if_false]

/-- A superblock without the ext2 signature: `main` returns `RET_INVALID_FS` right after
the read of the superblock. -/
theorem main_bad_magic (img : Image) (ino_arg : Nat) (w : World)
    (hsb : 1024 + sizeof_super_block ≤ img.file.size)
    (hm : le16 img.sb.s_magic ≠ EXT2_SUPER_MAGIC) :
    main 3 (some img) ino_arg w
      = some (.RET_INVALID_FS, { w with reads := w.reads ++ [1024] }) := by
  simp [main, fseek_fread_ok _ _ _ _ (by decide) hsb, hm]

/-- The check of the block size: with the ext2 signature, a shift count from 3 to 20 gives
`RET_INVALID_FS`, and a shift count of 21 or more has no defined behaviour. -/
theorem main_block_size (img : Image) (ino_arg : Nat) (w : World)
    (hsb : 1024 + sizeof_super_block ≤ img.file.size)
    (hm : le16 img.sb.s_magic = EXT2_SUPER_MAGIC) :
    (3 ≤ le32 img.sb.s_log_block_size → le32 img.sb.s_log_block_size ≤ 20 →
      main 3 (some img) ino_arg w
        = some (.RET_INVALID_FS, { w with reads := w.reads ++ [1024] })) ∧
    (21 ≤ le32 img.sb.s_log_block_size → main 3 (some img) ino_arg w = none) := by
  constructor
  · intro h3 h20
    have hs := shl_1024_eq (le32 img.sb.s_log_block_size)
    simp only [h20, if_true] at hs
    have hbig : ¬ (1024 * 2 ^ le32 img.sb.s_log_block_size % 4294967296 < 1024) ∧
        1024 * 2 ^ le32 img.sb.s_log_block_size % 4294967296 > 4096 := by
      generalize le32 img.sb.s_log_block_size = n at h3 h20
      interval_cases n <;> decide
    simp only [main, fseek_fread_ok _ _ _ _ (by decide) hsb, hm, hs, hbig.2, or_true, if_true]
    simp
  · intro h21
    have hs := shl_1024_eq (le32 img.sb.s_log_block_size)
    have hn : ¬ le32 img.sb.s_log_block_size ≤ 20 := by omega
    simp only [hn, if_false] at hs
    simp only [main, fseek_fread_ok _ _ _ _ (by decide) hsb, hm, hs]
    simp

/-- The block size `main` goes on with when the shift count is 0, 1 or 2. -/
theorem shl_1024_valid (n : Nat) (h : n ≤ 2) :
    ∃ bsz, shl_1024 n = some bsz ∧ bsz % 4294967296 = bsz ∧
      (bsz = 1024 ∨ bsz = 2048 ∨ bsz = 4096) := by
  interval_cases n
  · exact ⟨1024, by decide, by decide, by decide⟩
  · exact ⟨2048, by decide, by decide, by decide⟩
  · exact ⟨4096, by decide, by decide, by decide⟩

/-- A valid superblock and an inode number that is 0 or above the inode count, the number
of blocks per group not being 0: `main` returns `RET_INVALID_INODE` right after the read
of the superblock. -/
theorem main_bad_inode (img : Image) (ino_arg : Nat) (w : World)
    (hsb : 1024 + sizeof_super_block ≤ img.file.size)
    (hm : le16 img.sb.s_magic = EXT2_SUPER_MAGIC)
    (hlog : le32 img.sb.s_log_block_size ≤ 2)
    (hbpg : le32 img.sb.s_blocks_per_group ≠ 0)
    (hino : ino_arg % 4294967296 = 0 ∨ ino_arg % 4294967296 > le32 img.sb.s_inodes_count) :
    main 3 (some img) ino_arg w
      = some (.RET_INVALID_INODE, { w with reads := w.reads ++ [1024] }) := by
  obtain ⟨bsz, hs, hmod, hb⟩ := shl_1024_valid _ hlog
  have hok : ¬ (bsz < 1024 ∨ bsz > 4096) := by rcases hb with rfl | rfl | rfl <;> decide
  simp only [main, fseek_fread_ok _ _ _ _ (by decide) hsb, hm, hs, hmod, hok, div32, hbpg, hino]
  simp

/-- A valid superblock with fewer blocks than one group holds, the number of inodes per
group not being 0: `main` returns `RET_INVALID_INODE` for every inode number, right after
the read of the superblock. -/
theorem main_no_group (img : Image) (ino_arg : Nat) (w : World)
    (hsb : 1024 + sizeof_super_block ≤ img.file.size)
    (hm : le16 img.sb.s_magic = EXT2_SUPER_MAGIC)
    (hlog : le32 img.sb.s_log_block_size ≤ 2)
    (hlt : le32 img.sb.s_blocks_count < le32 img.sb.s_blocks_per_group)
    (hipg : le32 img.sb.s_inodes_per_group ≠ 0) :
    main 3 (some img) ino_arg w
      = some (.RET_INVALID_INODE, { w with reads := w.reads ++ [1024] }) := by
  obtain ⟨bsz, hs, hmod, hb⟩ := shl_1024_valid _ hlog
  have hok : ¬ (bsz < 1024 ∨ bsz > 4096) := by rcases hb with rfl | rfl | rfl <;> decide
  have hbpg : le32 img.sb.s_blocks_per_group ≠ 0 := by omega
  have hdiv : le32 img.sb.s_blocks_count / le32 img.sb.s_blocks_per_group = 0 :=
    Nat.div_eq_of_lt hlt
  by_cases hino : ino_arg % 4294967296 = 0 ∨
      ino_arg % 4294967296 > le32 img.sb.s_inodes_count
  · exact main_bad_inode img ino_arg w hsb hm hlog hbpg hino
  · simp only [main, fseek_fread_ok _ _ _ _ (by decide) hsb, hm, hs, hmod, hok, div32, hbpg, hino, hdiv,
      hipg]
    simp

/-- A valid superblock in which a divisor is 0: `main` divides by the number of blocks per
group before any test of it, and by the number of inodes per group as soon as the inode
number has passed its test. -/
theorem main_zero_divisor (img : Image) (ino_arg : Nat) (w : World)
    (hsb : 1024 + sizeof_super_block ≤ img.file.size)
    (hm : le16 img.sb.s_magic = EXT2_SUPER_MAGIC)
    (hlog : le32 img.sb.s_log_block_size ≤ 2) :
    (le32 img.sb.s_blocks_per_group = 0 → main 3 (some img) ino_arg w = none) ∧
    (le32 img.sb.s_blocks_per_group ≠ 0 → le32 img.sb.s_inodes_per_group = 0 →
      ino_arg % 4294967296 ≠ 0 → ino_arg % 4294967296 ≤ le32 img.sb.s_inodes_count →
      main 3 (some img) ino_arg w = none) := by
  obtain ⟨bsz, hs, hmod, hb⟩ := shl_1024_valid _ hlog
  have hok : ¬ (bsz < 1024 ∨ bsz > 4096) := by rcases hb with rfl | rfl | rfl <;> decide
  constructor
  · intro hz
    simp only [main, fseek_fread_ok _ _ _ _ (by decide) hsb, hm, hs, hmod, hok, div32, hz]
    simp
  · intro hbpg hz h0 hle
    have hino : ¬ (ino_arg % 4294967296 = 0 ∨
        ino_arg % 4294967296 > le32 img.sb.s_inodes_count) := by omega
    simp only [main, fseek_fread_ok _ _ _ _ (by decide) hsb, hm, hs, hmod, hok, div32, hbpg, hino, hz]
    simp

/-- The status codes are pairwise different numbers, and only `RET_OK` is 0. -/
theorem RetCode_toNat_injective (a b : RetCode) :
    (a.toNat = b.toNat → a = b) ∧ (a.toNat = 0 ↔ a = .RET_OK) := by
  cases a <;> cases b <;> decide

/-! ### The start of `main` at concrete inputs -/

/-- A superblock with a wrong signature at a concrete input. -/
theorem main_bad_magic_witness :
    main 3 (some (image_of ⟨16, 8192, 0, 8192, 16, 4660, 128⟩ (inode_with 1 0 0 1))) 1 world0
      = some (.RET_INVALID_FS, { world0 with reads := world0.reads ++ [1024] }) :=
  main_bad_magic (image_of ⟨16, 8192, 0, 8192, 16, 4660, 128⟩ (inode_with 1 0 0 1)) 1 world0
    (by decide) (by decide)

/-- A shift count of 3 at a concrete input. -/
theorem main_block_size_witness :
    main 3 (some (image_of ⟨16, 8192, 3, 8192, 16, 61267, 128⟩ (inode_with 1 0 0 1))) 1 world0
      = some (.RET_INVALID_FS, { world0 with reads := world0.reads ++ [1024] }) :=
  (main_block_size (image_of ⟨16, 8192, 3, 8192, 16, 61267, 128⟩ (inode_with 1 0 0 1)) 1
    world0 (by decide) (by decide)).1 (by decide) (by decide)

/-- An inode number above the inode count at a concrete input. -/
theorem main_bad_inode_witness :
    main 3 (some (image_of sb_small (inode_with 1 0 0 1))) 17 world0
      = some (.RET_INVALID_INODE, { world0 with reads := world0.reads ++ [1024] }) :=
  main_bad_inode (image_of sb_small (inode_with 1 0 0 1)) 17 world0 (by decide) (by decide)
    (by decide) (by decide) (by decide)

/-- A filesystem of 8191 blocks with 8192 blocks per group at a concrete input. -/
theorem main_no_group_witness :
    main 3 (some (image_of ⟨16, 8191, 0, 8192, 16, 61267, 128⟩ (inode_with 1 0 0 1))) 1 world0
      = some (.RET_INVALID_INODE, { world0 with reads := world0.reads ++ [1024] }) :=
  main_no_group (image_of ⟨16, 8191, 0, 8192, 16, 61267, 128⟩ (inode_with 1 0 0 1)) 1 world0
    (by decide) (by decide) (by decide) (by decide) (by decide)

/-- A superblock with 0 inodes per group at a concrete input. -/
theorem main_zero_divisor_witness :
    main 3 (some (image_of ⟨16, 8192, 0, 8192, 0, 61267, 128⟩ (inode_with 1 0 0 1))) 1 world0
      = none :=
  (main_zero_divisor (image_of ⟨16, 8192, 0, 8192, 0, 61267, 128⟩ (inode_with 1 0 0 1)) 1
    world0 (by decide) (by decide) (by decide)).2 (by decide) (by decide) (by decide)
    (by decide)

/-- A file of 12 blocks and one byte at a concrete input: 12 holes and the single-indirect
pointer block 1, whose entry 0 names block 7. -/
theorem main_extract_twelve_plus_one_witness :
    ∃ w1, main_extract image_4g (inode_with 12289 0 12 1) 1024 world0 = some (.RET_OK, w1) ∧
      w1.out = world0.out ++
        (((List.range 12).map fun k => spec_content image_4g 1024
            ((resolve image_4g (inode_with 12289 0 12 1) 1024 k).getD 0)).flatten
          ++ (spec_content image_4g 1024
            ((resolve image_4g (inode_with 12289 0 12 1) 1024 12).getD 0)).take 1) := by
  have hfs : file_size (inode_with 12289 0 12 1) = 12289 := by decide
  have hmb : max_blk 12289 1024 = 13 := by decide
  have hres : ∀ k, 0 ≤ k → k < 0 + 13 →
      ∃ pb, resolve image_4g (inode_with 12289 0 12 1) 1024 k = some pb ∧
        (pb ≠ 0 → mul32 pb 1024 + 1024 ≤ image_4g.size) := by
    intro k _ hk
    interval_cases k <;>
      first
        | exact ⟨0, by decide, by decide⟩
        | exact ⟨7, by decide, by decide⟩
  obtain ⟨w1, hw1⟩ := main_loop_progress image_4g (inode_with 12289 0 12 1) 1024 12289 13
    (by decide) 13 0 world0 rfl (by decide) hres
  have hrun : main_extract image_4g (inode_with 12289 0 12 1) 1024 world0
      = some (.RET_OK, w1) := by
    simp only [main_extract, hfs, hmb]
    exact hw1
  refine ⟨w1, hrun, ?_⟩
  exact main_extract_twelve_plus_one image_4g (inode_with 12289 0 12 1) 1024 world0 w1
    (by decide) (by decide) (by decide)
    (by
      intro b pb hb hr
      have hpb : pb = (resolve image_4g (inode_with 12289 0 12 1) 1024 b).getD 0 := by
        rw [hr]; rfl
      rw [hpb]
      interval_cases b <;> decide)
    hrun

/-- A file of exactly 12 blocks at a concrete input: 12 holes. -/
theorem main_extract_twelve_witness :
    ∃ w1, main_extract image_4g (inode_with 12288 0 12 1) 1024 world0 = some (.RET_OK, w1) ∧
      w1.out = world0.out ++
        ((List.range 12).map fun k => spec_content image_4g 1024
            ((resolve image_4g (inode_with 12288 0 12 1) 1024 k).getD 0)).flatten := by
  have hfs : file_size (inode_with 12288 0 12 1) = 12288 := by decide
  have hmb : max_blk 12288 1024 = 12 := by decide
  have hres : ∀ k, 0 ≤ k → k < 0 + 12 →
      ∃ pb, resolve image_4g (inode_with 12288 0 12 1) 1024 k = some pb ∧
        (pb ≠ 0 → mul32 pb 1024 + 1024 ≤ image_4g.size) := by
    intro k _ hk
    interval_cases k <;> exact ⟨0, by decide, by decide⟩
  obtain ⟨w1, hw1⟩ := main_loop_progress image_4g (inode_with 12288 0 12 1) 1024 12288 12
    (by decide) 12 0 world0 rfl (by decide) hres
  have hrun : main_extract image_4g (inode_with 12288 0 12 1) 1024 world0
      = some (.RET_OK, w1) := by
    simp only [main_extract, hfs, hmb]
    exact hw1
  refine ⟨w1, hrun, ?_⟩
  exact main_extract_twelve image_4g (inode_with 12288 0 12 1) 1024 world0 w1
    (by decide) (by decide) (by decide)
    (by
      intro b pb hb hr
      have hpb : pb = (resolve image_4g (inode_with 12288 0 12 1) 1024 b).getD 0 := by
        rw [hr]; rfl
      rw [hpb]
      interval_cases b <;> decide)
    hrun

/-! ## The claims, continued -/

/-- Claim C11, at an input where the code departs from it. For block number 4194304 and
block size 1024 the product of the integers is `2^32`, but the `uint32_t` product the code
passes to `fseek` is 0: `rd_indir` on pointer block 4194304 and the loop body of `main` on
data block 4194304 both make their read at offset 0. -/
theorem seek_offset_wraps :
    4194304 * 1024 = 4294967296 ∧ mul32 4194304 1024 = 0 ∧
    rd_indir image_4g 4194304 0 1024 world0 = .ok 1 ⟨[0], [], [], none⟩ ∧
    main_body image_4g (inode_with 1 0 0 4194304) 1024 1 1 0 world0
      = .next ⟨[0], [1], [], none⟩ := by
  decide

/-- Claim C12, at an input where the code departs from it. The inode has size
`16843021 * 1024` (high half 4, low half 67384320) and only zero pointers; the block size
is 1024. The loop bound is 16843021, the loop reaches iteration 16843020, and in it
`get_blk` is called with the index 16843020, which is `12 + E + E*E + E*E*E` and so not
below it; the call returns a hole and the whole extraction ends with `RET_OK`. -/
theorem main_passes_index_beyond_range :
    file_size (inode_with 67384320 4 0 0) = 16843021 * 1024 ∧
    max_blk (16843021 * 1024) 1024 = 16843021 ∧
    16843020 % 4294967296 = 12 + 256 + 256 * 256 + 256 * 256 * 256 ∧
    (∃ wb w1, main_reach image_3k (inode_with 67384320 4 0 0) 1024 (16843021 * 1024) 16843021
          16843020 world0 = some wb ∧
        main_body image_3k (inode_with 67384320 4 0 0) 1024 (16843021 * 1024) 16843021
          16843020 wb = .next w1) ∧
    (∃ w2, main_extract image_3k (inode_with 67384320 4 0 0) 1024 world0
        = some (.RET_OK, w2)) := by
  have hz : ∀ k, le32 ((inode_with 67384320 4 0 0).i_block k) = 0 := by
    intro k
    simp [inode_with, le32]
  have hres : ∀ k, ∃ pb, resolve image_3k (inode_with 67384320 4 0 0) 1024 k = some pb ∧
      (pb ≠ 0 → mul32 pb 1024 + 1024 ≤ image_3k.size) := by
    intro k
    exact ⟨0, resolve_zero_inode image_3k _ 1024 k (by decide) hz, fun h => absurd rfl h⟩
  have hfs : file_size (inode_with 67384320 4 0 0) = 16843021 * 1024 := by decide
  have hmb : max_blk (16843021 * 1024) 1024 = 16843021 := by decide
  refine ⟨hfs, hmb, by decide, ?_, ?_⟩
  · obtain ⟨wb, h1, h2, h3⟩ := main_reach_progress image_3k (inode_with 67384320 4 0 0) 1024
      (16843021 * 1024) 16843021 (by decide) world0 rfl (by decide) 16843020
      (fun k _ => hres k)
    obtain ⟨pb, hp, hrd⟩ := hres 16843020
    obtain ⟨w1, hw1, -, -⟩ := main_body_progress image_3k (inode_with 67384320 4 0 0) 1024
      (16843021 * 1024) 16843021 16843020 pb wb (by decide) h2 h3 hp hrd
    exact ⟨wb, w1, h1, hw1⟩
  · simp only [main_extract, hfs, hmb]
    exact main_loop_progress image_3k (inode_with 67384320 4 0 0) 1024 (16843021 * 1024)
      16843021 (by decide) 16843021 0 world0 rfl (by decide) (fun k _ _ => hres k)

/-- Claim C13, at an input where the code departs from it. The inode has size
`12 * 1024 + 1`, twelve zero direct pointers and `i_block[12] = 4194304`; entry 0 of
pointer block 4194304 (byte offset `2^32`) is 2 and the first byte of block 2 is 9.
Extraction ends with `RET_OK` after 12 blocks of zeros and one byte, but that byte is 7:
`rd_indir` reads the pointer block at offset 0, finds 1 there, and `main` emits the first
byte of block 1. -/
theorem main_extract_boundary_offset_wraps :
    (∃ w1, main_extract image_4g (inode_with 12289 0 12 4194304) 1024 world0
        = some (.RET_OK, w1) ∧
      w1.out = (List.replicate 12 (List.replicate 1024 (0 : Byte))).flatten ++ [7]) ∧
    file_size (inode_with 12289 0 12 4194304) = 12 * 1024 + 1 ∧
    resolve image_4g (inode_with 12289 0 12 4194304) 1024 12 = some 1 ∧
    spec_entry image_4g 1024 4194304 0 = some 2 ∧
    (spec_block image_4g 1024 2).take 1 = [9] := by
  refine ⟨?_, by decide, by decide, by decide, by decide⟩
  have hfs : file_size (inode_with 12289 0 12 4194304) = 12289 := by decide
  have hmb : max_blk 12289 1024 = 13 := by decide
  have hres : ∀ k, 0 ≤ k → k < 0 + 13 →
      ∃ pb, resolve image_4g (inode_with 12289 0 12 4194304) 1024 k = some pb ∧
        (pb ≠ 0 → mul32 pb 1024 + 1024 ≤ image_4g.size) := by
    intro k _ hk
    interval_cases k <;>
      first
        | exact ⟨0, by decide, by decide⟩
        | exact ⟨1, by decide, by decide⟩
  obtain ⟨w1, hw1⟩ := main_loop_progress image_4g (inode_with 12289 0 12 4194304) 1024 12289 13
    (by decide) 13 0 world0 rfl (by decide) hres
  refine ⟨w1, ?_, ?_⟩
  · simp only [main_extract, hfs, hmb]
    exact hw1
  · have hc := main_loop_content image_4g (inode_with 12289 0 12 4194304) 1024 12289 13
      (by decide) (by decide) 13 0 world0 w1 (by decide) (by decide) hw1
    have hlen : (if 13 = 0 then 0 else (13 - 1) * 1024 + blk_len 1024 12289 13 (13 - 1))
        = 12 * 1024 + 1 := by decide
    rw [hlen, take_flatten_snoc _ 1024 12 1 (fun k => code_content_length image_4g 1024 _)] at hc
    have hfirst : (List.range' 0 12).map (fun k => code_content image_4g 1024
          ((resolve image_4g (inode_with 12289 0 12 4194304) 1024 k).getD 0))
        = List.replicate 12 (List.replicate 1024 (0 : Byte)) := by
      have hconst : (List.range' 0 12).map (fun k => code_content image_4g 1024
            ((resolve image_4g (inode_with 12289 0 12 4194304) 1024 k).getD 0))
          = (List.range' 0 12).map (fun _ => List.replicate 1024 (0 : Byte)) := by
        apply List.map_congr_left
        intro k hk
        have hk2 : k < 12 := by
          have := (List.mem_range'_1.mp hk).2
          omega
        have hr : resolve image_4g (inode_with 12289 0 12 4194304) 1024 k = some 0 := by
          interval_cases k <;> decide
        rw [hr]
        rfl
      rw [hconst, List.map_const']
      rfl
    have hlast : (code_content image_4g 1024
          ((resolve image_4g (inode_with 12289 0 12 4194304) 1024 12).getD 0)).take 1
        = [7] := by decide
    rw [hfirst, hlast] at hc
    rw [hc]
    rfl

/-- Claim C14, at inputs where the code departs from it. With the ext2 signature, block
size 1024 and `s_blocks_per_group = 0`, the requests for inode 0 and for inode 17 (above
`s_inodes_count = 16`) do not end with `RET_INVALID_INODE`: line 135 divides by
`s_blocks_per_group` before line 136 tests the inode number, and the behaviour is
undefined. -/
theorem main_inode_check_after_division :
    main 3 (some (image_of ⟨16, 8192, 0, 0, 16, 61267, 128⟩ (inode_with 1 0 0 1))) 0 world0
      = none ∧
    main 3 (some (image_of ⟨16, 8192, 0, 0, 16, 61267, 128⟩ (inode_with 1 0 0 1))) 17 world0
      = none := by
  decide

/-- Claim C15, at inputs where the code departs from it. For `s_log_block_size` equal to
32, or to `2^32 - 1`, the shift `1024 << s_log_block_size` of line 127 has no defined
value (the count is not below the width of `int`; from 21 on the result does not fit
`int`), so `main` does not return `RET_INVALID_FS`: its behaviour is undefined. -/
theorem main_shift_undefined :
    shl_1024 21 = none ∧ shl_1024 32 = none ∧
    main 3 (some (image_of ⟨16, 8192, 32, 8192, 16, 61267, 128⟩ (inode_with 1 0 0 1))) 1 world0
      = none ∧
    main 3 (some (image_of ⟨16, 8192, 4294967295, 8192, 16, 61267, 128⟩ (inode_with 1 0 0 1)))
      1 world0 = none := by
  decide

/-- Claim C16, at inputs where the code departs from it. On a valid image and inode 1, when
the allocation of the inode buffer fails, and when it succeeds and the allocation of the
data-block buffer fails, `main` returns `RET_OK`, whose value is 0, the status of the run
in which every allocation succeeds; `RET_MEM_ERROR` is 3. -/
theorem main_malloc_failure_ok :
    main 3 (some (image_of sb_small (inode_with 1 0 0 1))) 1 ⟨[], [], [false], none⟩
      = some (.RET_OK, ⟨[1024, 2048], [], [], none⟩) ∧
    main 3 (some (image_of sb_small (inode_with 1 0 0 1))) 1 ⟨[], [], [true, false], none⟩
      = some (.RET_OK, ⟨[1024, 2048, 1024], [], [], none⟩) ∧
    main 3 (some (image_of sb_small (inode_with 1 0 0 1))) 1 world0
      = some (.RET_OK, ⟨[1024, 2048, 1024, 1024], [2], [], none⟩) ∧
    RetCode.RET_OK.toNat = 0 ∧ RetCode.RET_MEM_ERROR.toNat = 3 := by
  decide

/-- Claim C17. For every block size in {1024, 2048, 4096}, with `E = block_size / 4`, and
every logical index `i < 12 + E + E*E + E*E*E`:
* the 32-bit bounds `12 + E` and `12 + E + E*E` of `get_blk` are the integers of these
  names;
* the slot of `i_block` the block starts from and the number of entry indices are those
  of the tier the ranges of the specification assign to `i`: slot `i` and no index for
  `i < 12`, slot 12 and one index below `12 + E`, slot 13 and two below `12 + E + E*E`,
  slot 14 and three otherwise;
* every entry index passed to `rd_indir` is below `E`, and `buf[idx]` lies inside every
  buffer of `block_size` bytes;
* `get_blk` is the chain of calls of `rd_indir` along this path and its behaviour is
  defined. -/
theorem get_blk_in_range (bsz i : Nat) (hb : bsz = 1024 ∨ bsz = 2048 ∨ bsz = 4096)
    (hi : i < 12 + bsz / 4 + bsz / 4 * (bsz / 4) + bsz / 4 * (bsz / 4) * (bsz / 4)) :
    add32 EXT2_NDIR_BLOCKS (bsz / 4) = 12 + bsz / 4 ∧
    add32 (add32 EXT2_NDIR_BLOCKS (bsz / 4)) (mul32 (bsz / 4) (bsz / 4))
      = 12 + bsz / 4 + bsz / 4 * (bsz / 4) ∧
    (get_blk_path i bsz).1.val
      = (if i < 12 then i else if i < 12 + bsz / 4 then 12
          else if i < 12 + bsz / 4 + bsz / 4 * (bsz / 4) then 13 else 14) ∧
    (get_blk_path i bsz).2.length
      = (if i < 12 then 0 else if i < 12 + bsz / 4 then 1
          else if i < 12 + bsz / 4 + bsz / 4 * (bsz / 4) then 2 else 3) ∧
    (∀ idx ∈ (get_blk_path i bsz).2, idx < bsz / 4 ∧
      ∀ buf : List Byte, buf.length = bsz → (buf_le32 buf idx).isSome) ∧
    (∀ (f : FILE) (ino : ext2_inode) (w : World),
      get_blk f i ino bsz w
        = rd_chain f bsz (le32 (ino.i_block (get_blk_path i bsz).1)) (get_blk_path i bsz).2 w ∧
      get_blk f i ino bsz w ≠ .undefined) := by
  obtain ⟨e1, -, e3, -⟩ := tier_bounds bsz hb
  have hE : 0 < bsz / 4 := by rcases hb with rfl | rfl | rfl <;> decide
  have hi32 : i < 4294967296 := by rcases hb with rfl | rfl | rfl <;> omega
  have hidx : ∀ idx ∈ (get_blk_path i bsz).2, idx < bsz / 4 := by
    intro idx hmem
    by_cases c0 : i < 12
    · rw [get_blk_path_direct bsz i c0] at hmem
      simp at hmem
    by_cases c1 : i < 12 + bsz / 4
    · rw [get_blk_path_single bsz i hb (by omega) c1] at hmem
      simp only [List.mem_singleton] at hmem
      omega
    by_cases c2 : i < 12 + bsz / 4 + bsz / 4 * (bsz / 4)
    · rw [get_blk_path_double bsz i hb (by omega) c2] at hmem
      simp only [List.mem_cons, List.mem_singleton, List.not_mem_nil, or_false] at hmem
      rcases hmem with rfl | rfl
      · rw [Nat.div_lt_iff_lt_mul hE]; omega
      · exact Nat.mod_lt _ hE
    · rw [get_blk_path_triple bsz i hb (by omega) hi32] at hmem
      simp only [List.mem_cons, List.mem_singleton, List.not_mem_nil, or_false] at hmem
      rcases hmem with rfl | rfl | rfl
      · rw [Nat.div_lt_iff_lt_mul (Nat.mul_pos hE hE)]
        have : bsz / 4 * (bsz / 4 * (bsz / 4)) = bsz / 4 * (bsz / 4) * (bsz / 4) := by ring
        omega
      · exact Nat.mod_lt _ hE
      · exact Nat.mod_lt _ hE
  refine ⟨e1, e3, ?_, ?_, ?_, ?_⟩
  · exact get_blk_path_slot bsz i hb hi32
  · by_cases c0 : i < 12
    · rw [get_blk_path_direct bsz i c0]; simp [c0]
    by_cases c1 : i < 12 + bsz / 4
    · rw [get_blk_path_single bsz i hb (by omega) c1]; simp [c0, c1]
    by_cases c2 : i < 12 + bsz / 4 + bsz / 4 * (bsz / 4)
    · rw [get_blk_path_double bsz i hb (by omega) c2]; simp [c0, c1, c2]
    · rw [get_blk_path_triple bsz i hb (by omega) hi32]; simp [c0, c1, c2]
  · intro idx hmem
    exact ⟨hidx idx hmem, fun buf hlen => buf_le32_defined buf bsz idx hb hlen (hidx idx hmem)⟩
  · intro f ino w
    have hc := get_blk_eq_chain f ino bsz i w hb hi32
    refine ⟨hc, ?_⟩
    rw [hc]
    exact rd_chain_defined f bsz hb _ hidx _ w

/-- Claim C17 at a concrete input: block size 1024 and the last index of the
triple-indirect tier, 16843019. -/
theorem get_blk_in_range_witness :
    add32 EXT2_NDIR_BLOCKS (1024 / 4) = 12 + 1024 / 4 ∧
    add32 (add32 EXT2_NDIR_BLOCKS (1024 / 4)) (mul32 (1024 / 4) (1024 / 4))
      = 12 + 1024 / 4 + 1024 / 4 * (1024 / 4) ∧
    (get_blk_path 16843019 1024).1.val
      = (if 16843019 < 12 then 16843019 else if 16843019 < 12 + 1024 / 4 then 12
          else if 16843019 < 12 + 1024 / 4 + 1024 / 4 * (1024 / 4) then 13 else 14) ∧
    (get_blk_path 16843019 1024).2.length
      = (if 16843019 < 12 then 0 else if 16843019 < 12 + 1024 / 4 then 1
          else if 16843019 < 12 + 1024 / 4 + 1024 / 4 * (1024 / 4) then 2 else 3) ∧
    (∀ idx ∈ (get_blk_path 16843019 1024).2, idx < 1024 / 4 ∧
      ∀ buf : List Byte, buf.length = 1024 → (buf_le32 buf idx).isSome) ∧
    (∀ (f : FILE) (ino : ext2_inode) (w : World),
      get_blk f 16843019 ino 1024 w
        = rd_chain f 1024 (le32 (ino.i_block (get_blk_path 16843019 1024).1))
            (get_blk_path 16843019 1024).2 w ∧
      get_blk f 16843019 ino 1024 w ≠ .undefined) :=
  get_blk_in_range 1024 16843019 (by decide) (by decide)

/-- Claim C18. For every block size in {1024, 2048, 4096}, with `E = block_size / 4`, and
logical indices `i`, `j` below `12 + E + E*E + E*E*E`: in the double-indirect tier the
indices of the path satisfy `idx1 * E + idx2 = i - (12 + E)`, in the triple-indirect tier
`idx1 * E * E + idx2 * E + idx3 = i - (12 + E + E*E)`, and two indices with the same slot
and the same entry indices are equal. -/
theorem get_blk_path_invertible (bsz i j : Nat) (hb : bsz = 1024 ∨ bsz = 2048 ∨ bsz = 4096)
    (hi : i < 12 + bsz / 4 + bsz / 4 * (bsz / 4) + bsz / 4 * (bsz / 4) * (bsz / 4))
    (hj : j < 12 + bsz / 4 + bsz / 4 * (bsz / 4) + bsz / 4 * (bsz / 4) * (bsz / 4)) :
    (12 + bsz / 4 ≤ i → i < 12 + bsz / 4 + bsz / 4 * (bsz / 4) →
      ∃ idx1 idx2, get_blk_path i bsz = (EXT2_DIND_BLOCK, [idx1, idx2]) ∧
        idx1 * (bsz / 4) + idx2 = i - (12 + bsz / 4)) ∧
    (12 + bsz / 4 + bsz / 4 * (bsz / 4) ≤ i →
      ∃ idx1 idx2 idx3, get_blk_path i bsz = (EXT2_TIND_BLOCK, [idx1, idx2, idx3]) ∧
        idx1 * (bsz / 4) * (bsz / 4) + idx2 * (bsz / 4) + idx3
          = i - (12 + bsz / 4 + bsz / 4 * (bsz / 4))) ∧
    (get_blk_path i bsz = get_blk_path j bsz → i = j) := by
  have hi32 : i < 4294967296 := by rcases hb with rfl | rfl | rfl <;> omega
  have hj32 : j < 4294967296 := by rcases hb with rfl | rfl | rfl <;> omega
  refine ⟨?_, ?_, ?_⟩
  · intro h1 h2
    refine ⟨_, _, get_blk_path_double bsz i hb h1 h2, ?_⟩
    rcases hb with rfl | rfl | rfl <;> omega
  · intro h1
    refine ⟨_, _, _, get_blk_path_triple bsz i hb h1 hi32, ?_⟩
    rcases hb with rfl | rfl | rfl <;> omega
  · intro heq
    have hslot : (get_blk_path i bsz).1.val = (get_blk_path j bsz).1.val := by rw [heq]
    rw [get_blk_path_slot bsz i hb hi32, get_blk_path_slot bsz j hb hj32] at hslot
    by_cases ci0 : i < 12
    · by_cases cj0 : j < 12
      · simp only [ci0, cj0, if_true] at hslot; exact hslot
      · exfalso; simp only [ci0, cj0, if_true, if_false] at hslot; split_ifs at hslot <;> omega
    by_cases ci1 : i < 12 + bsz / 4
    · by_cases cj0 : j < 12
      · exfalso; simp only [ci0, ci1, cj0, if_true, if_false] at hslot; omega
      by_cases cj1 : j < 12 + bsz / 4
      · have hp := heq
        rw [get_blk_path_single bsz i hb (by omega) ci1,
          get_blk_path_single bsz j hb (by omega) cj1] at hp
        simp only [Prod.mk.injEq, List.cons.injEq, and_true, true_and] at hp
        omega
      · exfalso; simp only [ci0, ci1, cj0, cj1, if_true, if_false] at hslot
        split_ifs at hslot <;> omega
    by_cases ci2 : i < 12 + bsz / 4 + bsz / 4 * (bsz / 4)
    · by_cases cj0 : j < 12
      · exfalso; simp only [ci0, ci1, ci2, cj0, if_true, if_false] at hslot; omega
      by_cases cj1 : j < 12 + bsz / 4
      · exfalso; simp only [ci0, ci1, ci2, cj0, cj1, if_true, if_false] at hslot; omega
      by_cases cj2 : j < 12 + bsz / 4 + bsz / 4 * (bsz / 4)
      · have hp := heq
        rw [get_blk_path_double bsz i hb (by omega) ci2,
          get_blk_path_double bsz j hb (by omega) cj2] at hp
        simp only [Prod.mk.injEq, List.cons.injEq, and_true, true_and] at hp
        rcases hb with rfl | rfl | rfl <;> omega
      · exfalso; simp only [ci0, ci1, ci2, cj0, cj1, cj2, if_true, if_false] at hslot; omega
    · by_cases cj0 : j < 12
      · exfalso; simp only [ci0, ci1, ci2, cj0, if_true, if_false] at hslot; omega
      by_cases cj1 : j < 12 + bsz / 4
      · exfalso; simp only [ci0, ci1, ci2, cj0, cj1, if_true, if_false] at hslot; omega
      by_cases cj2 : j < 12 + bsz / 4 + bsz / 4 * (bsz / 4)
      · exfalso; simp only [ci0, ci1, ci2, cj0, cj1, cj2, if_true, if_false] at hslot; omega
      · have hp := heq
        rw [get_blk_path_triple bsz i hb (by omega) hi32,
          get_blk_path_triple bsz j hb (by omega) hj32] at hp
        simp only [Prod.mk.injEq, List.cons.injEq, and_true, true_and] at hp
        rcases hb with rfl | rfl | rfl <;> omega

/-- Claim C18 at a concrete input: block size 1024, the double-indirect index 568 and the
triple-indirect index 70000. -/
theorem get_blk_path_invertible_witness :
    (12 + 1024 / 4 ≤ 568 → 568 < 12 + 1024 / 4 + 1024 / 4 * (1024 / 4) →
      ∃ idx1 idx2, get_blk_path 568 1024 = (EXT2_DIND_BLOCK, [idx1, idx2]) ∧
        idx1 * (1024 / 4) + idx2 = 568 - (12 + 1024 / 4)) ∧
    (12 + 1024 / 4 + 1024 / 4 * (1024 / 4) ≤ 568 →
      ∃ idx1 idx2 idx3, get_blk_path 568 1024 = (EXT2_TIND_BLOCK, [idx1, idx2, idx3]) ∧
        idx1 * (1024 / 4) * (1024 / 4) + idx2 * (1024 / 4) + idx3
          = 568 - (12 + 1024 / 4 + 1024 / 4 * (1024 / 4))) ∧
    (get_blk_path 568 1024 = get_blk_path 70000 1024 → 568 = 70000) :=
  get_blk_path_invertible 1024 568 70000 (by decide) (by decide) (by decide)

/-- Claim C19, at an input where the code departs from it. The superblock has the ext2
signature, block size 1024, 8191 blocks, 8192 blocks per group and
`s_inodes_per_group = 0`. The request for inode 1 (of 16) passes the test of line 136, and
line 143 divides by `s_inodes_per_group`: `main` does not return `RET_INVALID_INODE`, its
behaviour is undefined. -/
theorem main_no_group_divides :
    le32 (8191 : Nat) < le32 (8192 : Nat) ∧
    main 3 (some (image_of ⟨16, 8191, 0, 8192, 0, 61267, 128⟩ (inode_with 1 0 0 1))) 1 world0
      = none := by
  decide

/-- Claim C20, at inputs where the code departs from it. A superblock with the ext2
signature and block size 1024 passes the two checks; with `s_blocks_per_group = 0` the
division of line 135, and with `s_inodes_per_group = 0` the division of line 143, is
evaluated with a zero divisor for the request of inode 1: no error status is returned. -/
theorem main_divides_by_zero :
    main 3 (some (image_of ⟨16, 8192, 0, 0, 16, 61267, 128⟩ (inode_with 1 0 0 1))) 1 world0
      = none ∧
    main 3 (some (image_of ⟨16, 8192, 0, 8192, 0, 61267, 128⟩ (inode_with 1 0 0 1))) 1 world0
      = none ∧
    div32 8192 0 = none := by
  decide

end Ext2Reader
